import Mathlib

/-!
# Verification of the borsh serialization core

A shallow embedding of the encode/decode engine of the `borsh` crate
(`src/borsh/src/ser/mod.rs` and `src/borsh/src/de/mod.rs`), together with
theorems settling the specification's claims about it.

Conventions of the embedding:

* A byte is `Fin 256`; a byte stream is a `List Byte`.
* Machine integers are modelled as `Fin (256 ^ w)` (unsigned, `w` bytes wide)
  and `Int` with an explicit range (signed); `to_le_bytes`/`from_le_bytes`
  become `encodeLE`/`bytesToNat`.
* Fallible operations return `Except Err _`; `Err` mirrors the crate's
  `io::Error` values (an error kind plus a message or an opaque payload
  passed through from the underlying transport).
* A byte source (`Read` implementor) is a `Reader`: the bytes it will still
  deliver plus what happens once they run out (clean end of input, or an
  I/O error with a given kind and payload).
* Serialization targets an in-memory `Vec<u8>` sink, which never fails, so
  the writer is not threaded: serializers return the produced bytes, failing
  only where the source itself fails (length overflow, zero-sized elements).
-/

/-- A single byte. -/
abbrev Byte : Type := Fin 256

instance : DecidableEq Byte := instDecidableEqFin 256

instance : Inhabited Byte := ⟨(0 : Fin 256)⟩

/-- `x.to_le_bytes()` for a `w`-byte-wide integer: little-endian byte list of
length `w` (low byte first), as produced by the `impl_for_integer!` serializers
in `ser/mod.rs`. -/
def encodeLE : (w : Nat) → Nat → List Byte
  | 0, _ => []
  | w + 1, x => ⟨x % 256, Nat.mod_lt x (by norm_num)⟩ :: encodeLE w (x / 256)

/-- `from_le_bytes`: reassemble a little-endian byte list into a natural
number, as done by the `impl_for_integer!` deserializers in `de/mod.rs`. -/
def bytesToNat : List Byte → Nat
  | [] => 0
  | b :: rest => b.val + 256 * bytesToNat rest

theorem encodeLE_length (w x : Nat) : (encodeLE w x).length = w := by
  induction w generalizing x with
  | zero => rfl
  | succ w ih => simp [encodeLE, ih]

theorem bytesToNat_encodeLE (w x : Nat) :
    bytesToNat (encodeLE w x) = x % 256 ^ w := by
  induction w generalizing x with
  | zero => simp [encodeLE, bytesToNat, Nat.mod_one]
  | succ w ih =>
    simp only [encodeLE, bytesToNat, ih]
    rw [Nat.pow_succ, Nat.mul_comm (256 ^ w) 256, Nat.mod_mul]

theorem bytesToNat_lt (bs : List Byte) : bytesToNat bs < 256 ^ bs.length := by
  induction bs with
  | nil => simp [bytesToNat]
  | cons b rest ih =>
    simp only [bytesToNat, List.length_cons, Nat.pow_succ]
    have hb : b.val < 256 := b.isLt
    calc b.val + 256 * bytesToNat rest
        ≤ 255 + 256 * bytesToNat rest := by omega
      _ < 256 * (bytesToNat rest + 1) := by omega
      _ ≤ 256 ^ rest.length * 256 := by
          have := ih
          have : bytesToNat rest + 1 ≤ 256 ^ rest.length := ih
          calc 256 * (bytesToNat rest + 1) ≤ 256 * 256 ^ rest.length :=
                Nat.mul_le_mul_left _ this
            _ = 256 ^ rest.length * 256 := Nat.mul_comm _ _

theorem bytesToNat_append (bs cs : List Byte) :
    bytesToNat (bs ++ cs) = bytesToNat bs + 256 ^ bs.length * bytesToNat cs := by
  induction bs with
  | nil => simp [bytesToNat]
  | cons b rest ih =>
    have hcons : (b :: rest) ++ cs = b :: (rest ++ cs) := rfl
    rw [hcons]
    show b.val + 256 * bytesToNat (rest ++ cs) = _
    rw [ih, List.length_cons, Nat.pow_succ]
    simp only [bytesToNat]
    ring

/-- Error kinds of `io::ErrorKind` that the codec inspects or constructs:
`InvalidData` (every borsh-constructed error), `UnexpectedEof` (the signal the
root entry points and the eof-mapping test on), and an opaque remainder for
every other kind a transport may report. -/
inductive ErrorKind : Type
  | invalidData
  | unexpectedEof
  | other (code : Nat)
deriving DecidableEq

/-- The distinct `InvalidData` messages constructed by `ser/mod.rs` and
`de/mod.rs` (string constants `ERROR_*` and the `format!` messages, the latter
carrying the offending byte). -/
inductive Msg : Type
  /-- `"Not all bytes read"` -/
  | notAllBytesRead
  /-- `"Unexpected length of input"` -/
  | unexpectedLengthOfInput
  /-- `"Overflow on machine with 32 bit usize"` -/
  | overflowUsize32
  /-- `"Overflow on machine with 32 bit isize"` -/
  | overflowIsize32
  /-- `"Expected a non-zero value"` -/
  | invalidZeroValue
  /-- `"keys were not serialized in ascending order"` -/
  | wrongOrderOfKeys
  /-- `"Invalid bool representation: {b}"` -/
  | invalidBool (b : Nat)
  /-- `"Invalid Option representation: {b}. The first byte must be 0 or 1"` -/
  | invalidOption (b : Nat)
  /-- `"Invalid Result representation: {b}. The first byte must be 0 or 1"` -/
  | invalidResult (b : Nat)
  /-- the error produced from `ErrorKind::InvalidData` when
  `u32::try_from(len)` fails on serializing an over-long collection -/
  | lengthOverflow
  /-- Modelled from the spec: the "Zero-sized-element" error raised by
  `check_zst` (the `error` module is not under `src/`): collections of
  zero-sized element types are rejected. -/
  | collectionOfZst
deriving DecidableEq

/-- An `io::Error` as the codec observes it: either an `InvalidData` error
constructed by borsh itself with one of the known messages, the
`UnexpectedEof` error `read_exact` constructs on short input, or an error
passed through verbatim from the underlying transport (kind plus an opaque
payload distinguishing it). -/
inductive Err : Type
  | invalidData (m : Msg)
  | readExactEof
  | io (kind : ErrorKind) (payload : Nat)
deriving DecidableEq

/-- `Error::kind()`. -/
def Err.kind : Err → ErrorKind
  | .invalidData _ => .invalidData
  | .readExactEof => .unexpectedEof
  | .io k _ => k

/-- Modelled from the spec: an abstract sequential byte source (the `Read`
implementor handed to `deserialize_reader`; the `io` module itself is not
under `src/`). It is "an abstract origin of sequential reads" that "exposes
read exactly N bytes or fail distinguishing end-of-input from short input":
`data` is the sequence of bytes it will still deliver; once exhausted it
either reports clean end of input (`tailErr = none`, reads return 0 bytes) or
fails with the given transport error on every further read. -/
structure Reader : Type where
  data : List Byte
  tailErr : Option (ErrorKind × Nat)
deriving DecidableEq

/-- Modelled from the spec: `Read::read` into a buffer of size `n` — delivers
between 1 and `n` of the remaining bytes (here: as many as are available, up
to `n`), returns 0 bytes at clean end of input, or the transport's error. -/
def Reader.read (r : Reader) (n : Nat) : Except Err (List Byte × Reader) :=
  if r.data.isEmpty then
    match r.tailErr with
    | none => .ok ([], r)
    | some (k, p) => .error (.io k p)
  else
    .ok (r.data.take n, ⟨r.data.drop n, r.tailErr⟩)

/-- Modelled from the spec: `Read::read_exact` — "read exactly N bytes or
fail distinguishing end-of-input from short input": delivers exactly `n`
bytes, or the `UnexpectedEof` error it constructs when the source ends first,
or the transport's own error verbatim. -/
def Reader.readExact (r : Reader) (n : Nat) : Except Err (List Byte × Reader) :=
  if n ≤ r.data.length then
    .ok (r.data.take n, ⟨r.data.drop n, r.tailErr⟩)
  else
    match r.tailErr with
    | none => .error .readExactEof
    | some (k, p) => .error (.io k p)

/-- `unexpected_eof_to_unexpected_length_of_input` (`de/mod.rs:174`): an error
of kind `UnexpectedEof` is replaced by the `InvalidData` error
`"Unexpected length of input"`; every other error is returned unchanged. -/
def unexpectedEofToUnexpectedLengthOfInput (e : Err) : Err :=
  if e.kind = ErrorKind.unexpectedEof then .invalidData .unexpectedLengthOfInput
  else e

/-- One MiB, the fixed allocation ceiling `1024 * 1024` in
`u8::vec_from_reader` (`de/mod.rs:211`). -/
def MB : Nat := 1024 * 1024

/-- The read loop of `u8::vec_from_reader` (`de/mod.rs:205-234`).

The Rust buffer `vec` is modelled by its already-filled prefix `filled`
(`vec[..pos]`, `pos = filled.length`) together with its current length `cap`
(`vec.len()`); the unfilled suffix `vec[pos..]` is all zeroes and is only ever
overwritten before it becomes visible, so it carries no information.

Each iteration: if `pos` reached the declared `len`, return the buffer; if
the buffer is full (`pos == vec.len()`), grow it to
`min (vec.len() * 2) len` (`vec.resize(vec.len().saturating_mul(2).min(len), 0)`);
read into `vec[pos..]`; a read of 0 bytes fails with
`"Unexpected length of input"`, a read of `k > 0` bytes advances `pos`.

Alongside the result the largest buffer length reached during the run is
returned, so that theorems can speak about allocation. -/
def vecResize (cap len pos : Nat) : Nat :=
  if pos = cap then min (cap * 2) len else cap

def vecFromReaderU8Loop (len : Nat) (filled : List Byte) (cap : Nat)
    (r : Reader) : Except Err (List Byte × Reader) × Nat :=
  if h : filled.length < len then
    match r.read (vecResize cap len filled.length - filled.length) with
    | .error e => (.error e, vecResize cap len filled.length)
    | .ok (chunk, r') =>
      if hc : chunk.length = 0 then
        (.error (.invalidData .unexpectedLengthOfInput),
         vecResize cap len filled.length)
      else
        ((vecFromReaderU8Loop len (filled ++ chunk)
            (vecResize cap len filled.length) r').1,
         max (vecResize cap len filled.length)
           (vecFromReaderU8Loop len (filled ++ chunk)
             (vecResize cap len filled.length) r').2)
  else
    (.ok (filled, r), cap)
termination_by len - filled.length
decreasing_by
  all_goals simp only [List.length_append]
  all_goals omega

/-- `u8::vec_from_reader` (`de/mod.rs:205-234`): the bulk byte-vector read
used for `Vec<u8>` payloads. Allocates `vec![0u8; len.min(1024 * 1024)]` and
runs the read loop. Returns the result together with the largest buffer
length reached. -/
def vecFromReaderU8 (len : Nat) (r : Reader) :
    Except Err (List Byte × Reader) × Nat :=
  vecFromReaderU8Loop len [] (min len MB) r

/-- `std::net::SocketAddrV6` as the codec sees it: the 16 address octets, the
port, and the `flowinfo`/`scope_id` fields that `SocketAddrV6::new(ip, port, 0, 0)`
sets on decode (`de/mod.rs:1117-1135`). -/
structure SockAddrV6 : Type where
  ip : List Byte
  port : Fin (256 ^ 2)
  flowinfo : Fin (256 ^ 4)
  scopeId : Fin (256 ^ 4)
deriving DecidableEq

/-- The universe of borsh-codable types the development covers: fixed-width
unsigned and signed integers (`w` bytes wide; the crate instantiates
`impl_for_integer!` at widths 1, 2, 4, 8, 16), `bool`, the unit type `()`,
`Option<T>`, `Result<T, E>`, tuples `(A, B)`, `Vec<T>`, and
`std::net::SocketAddrV6`. -/
inductive Ty : Type
  | uint (w : Nat)
  | sint (w : Nat)
  | bool
  | unit
  | opt (t : Ty)
  | res (t e : Ty)
  | pair (a b : Ty)
  | vec (t : Ty)
  | sockAddrV6
deriving DecidableEq

/-- The Lean type of in-memory values of each `Ty`. A `Result<T, E>` is
`Sum`: `.inl` is `Err(e)`, `.inr` is `Ok(t)`, matching the tag bytes 0/1. -/
def Ty.denote : Ty → Type
  | .uint w => Fin (256 ^ w)
  | .sint _ => Int
  | .bool => Bool
  | .unit => Unit
  | .opt t => Option t.denote
  | .res t e => e.denote ⊕ t.denote
  | .pair a b => a.denote × b.denote
  | .vec t => List t.denote
  | .sockAddrV6 => SockAddrV6

def Ty.decEqDenote : (t : Ty) → DecidableEq t.denote
  | .uint _ => instDecidableEqFin _
  | .sint _ => Int.instDecidableEq
  | .bool => instDecidableEqBool
  | .unit => fun _ _ => .isTrue rfl
  | .opt t => by
    letI := Ty.decEqDenote t
    exact (inferInstance : DecidableEq (Option t.denote))
  | .res t e => by
    letI := Ty.decEqDenote t; letI := Ty.decEqDenote e
    exact (inferInstance : DecidableEq (e.denote ⊕ t.denote))
  | .pair a b => by
    letI := Ty.decEqDenote a; letI := Ty.decEqDenote b
    exact (inferInstance : DecidableEq (a.denote × b.denote))
  | .vec t => by
    letI := Ty.decEqDenote t
    exact (inferInstance : DecidableEq (List t.denote))
  | .sockAddrV6 => instDecidableEqSockAddrV6

instance (t : Ty) : DecidableEq t.denote := Ty.decEqDenote t

/-- Modelled from the spec: `size_of::<T>() == 0`, the test `check_zst` rests
on (the `error` module is not under `src/`): among the covered types exactly
the unit type and tuples of zero-sized types occupy zero bytes. -/
def Ty.isZST : Ty → Bool
  | .unit => true
  | .pair a b => a.isZST && b.isZST
  | _ => false

/-- Modelled from the spec: `check_zst::<T>()` — the guard rejecting
"sequence/collection of zero-sized element type" with the Zero-sized-element
error, run before collection encode/decode. -/
def checkZst (t : Ty) : Except Err Unit :=
  if t.isZST then .error (.invalidData .collectionOfZst) else .ok ()

/-- Run an element serializer over a list and concatenate the outputs:
the loop bodies of `serialize_slice` (`ser/mod.rs:420-437`, generic path) and
of the collection serializers. -/
def serializeElems (f : α → Except Err (List Byte)) : List α → Except Err (List Byte)
  | [] => .ok []
  | x :: xs =>
    match f x with
    | .error e => .error e
    | .ok b =>
      match serializeElems f xs with
      | .error e => .error e
      | .ok rest => .ok (b ++ rest)

/-- `BorshSerialize::serialize` for each covered type, writing into an
in-memory `Vec<u8>` sink (which never fails):

* `uint w`/`sint w`: `self.to_le_bytes()` (`impl_for_integer!`,
  `ser/mod.rs:101-131`); a signed value is encoded as its two's-complement
  bit pattern, i.e. little-endian bytes of `v mod 256^w`.
* `bool`: `u8::from(*self)` then one byte (`ser/mod.rs:225-236`).
* `()`: writes nothing (`impl_tuple!(@unit ())`, `ser/mod.rs:1014-1027`).
* `Option<T>`: tag byte 0, or tag byte 1 followed by the payload
  (`ser/mod.rs:245-267`).
* `Result<T, E>`: tag byte 0 then the `Err` payload, or tag byte 1 then the
  `Ok` payload (`ser/mod.rs:277-302`).
* `(A, B)`: the fields in order (`impl_tuple!`, `ser/mod.rs:1029-1053`).
* `Vec<T>`: `check_zst`, the `u32` length (failing when the length exceeds
  `u32::MAX`) then the elements in order (`ser/mod.rs:446-462, 512-528`; the
  `u8_slice` bulk path of `serialize_slice` writes the same bytes as the
  per-element loop).
* `SocketAddrV6`: the 16 ip octets then the port; `flowinfo`/`scope_id` are
  not written (`ser/mod.rs:879-891, 917-927`). -/
def Ty.serialize : (t : Ty) → t.denote → Except Err (List Byte)
  | .uint w, v => .ok (encodeLE w v.val)
  | .sint w, v => .ok (encodeLE w (v.emod (256 ^ w)).toNat)
  | .bool, v => .ok (encodeLE 1 (cond v 1 0))
  | .unit, _ => .ok []
  | .opt t, v =>
    match v with
    | none => .ok (encodeLE 1 0)
    | some x =>
      match Ty.serialize t x with
      | .error e => .error e
      | .ok payload => .ok (encodeLE 1 1 ++ payload)
  | .res t e, v =>
    match v with
    | .inl err =>
      match Ty.serialize e err with
      | .error er => .error er
      | .ok payload => .ok (encodeLE 1 0 ++ payload)
    | .inr ok =>
      match Ty.serialize t ok with
      | .error er => .error er
      | .ok payload => .ok (encodeLE 1 1 ++ payload)
  | .pair a b, v =>
    match Ty.serialize a v.1 with
    | .error e => .error e
    | .ok fst =>
      match Ty.serialize b v.2 with
      | .error e => .error e
      | .ok snd => .ok (fst ++ snd)
  | .vec t, v =>
    match checkZst t with
    | .error e => .error e
    | .ok _ =>
      if v.length < 256 ^ 4 then
        match serializeElems (fun x => Ty.serialize t x) v with
        | .error e => .error e
        | .ok payload => .ok (encodeLE 4 v.length ++ payload)
      else
        .error (.invalidData .lengthOverflow)
  | .sockAddrV6, v => .ok (v.ip ++ encodeLE 2 v.port.val)

/-- The `impl_for_integer!` deserializer (`de/mod.rs:250-272`, also
`u8::deserialize_reader`, `de/mod.rs:187-198`): `read_exact` into a `w`-byte
buffer, mapping an end-of-input failure to `"Unexpected length of input"`,
then `from_le_bytes`. (`bytesToNat bs` is below `256 ^ w` whenever `bs` has
length `w`; the `%` makes that a `Fin` without a dependent read.) -/
def readLEFin (w : Nat) (r : Reader) : Except Err (Fin (256 ^ w) × Reader) :=
  match r.readExact w with
  | .error e => .error (unexpectedEofToUnexpectedLengthOfInput e)
  | .ok (bs, r') =>
    .ok (⟨bytesToNat bs % 256 ^ w,
          Nat.mod_lt _ (Nat.pos_pow_of_pos w (by norm_num))⟩, r')

/-- Decode `n` successive elements with the given element decoder: the
`for _ in 0..len { result.push(T::deserialize_reader(reader)?) }` loop of the
generic `Vec<T>` path (`de/mod.rs:615-622`). -/
def decodeElems (d : Reader → Except Err (α × Reader)) :
    Nat → Reader → Except Err (List α × Reader)
  | 0, r => .ok ([], r)
  | n + 1, r =>
    match d r with
    | .error e => .error e
    | .ok (x, r) =>
      match decodeElems d n r with
      | .error e => .error e
      | .ok (xs, r) => .ok (x :: xs, r)

/-- `BorshDeserialize::deserialize_reader` for each covered type:

* `uint w`: `read_exact` then `from_le_bytes` (`impl_for_integer!`,
  `de/mod.rs:250-272`).
* `sint w`: the same bytes read back as a signed (two's-complement) value.
* `bool`: one byte; 0 is `false`, 1 is `true`, anything else is
  `"Invalid bool representation: {b}"` (`de/mod.rs:388-409`).
* `()`: reads nothing (`impl_tuple!(@unit ())`, `de/mod.rs:1387-1403`).
* `Option<T>`: one flag byte; 0 is `None`, 1 is `Some` of the decoded
  payload, anything else is `"Invalid Option representation: {b}. ..."`
  (`de/mod.rs:418-449`).
* `Result<T, E>`: one flag byte; 0 is `Err`, 1 is `Ok`, anything else is
  `"Invalid Result representation: {b}. ..."` (`de/mod.rs:459-495`).
* `(A, B)`: the fields in order (`impl_tuple!`, `de/mod.rs:1405-1430`).
* `Vec<T>`: `check_zst`, a `u32` length, `Vec::new()` when it is 0, then
  `T::vec_from_reader` — which takes the capped bulk path for `u8` elements
  and falls through to the per-element loop for every other type
  (`de/mod.rs:589-626`, `de/mod.rs:205-234`).
* `SocketAddrV6`: a 16-byte `Ipv6Addr`, a `u16` port, and
  `SocketAddrV6::new(ip, port, 0, 0)` (`de/mod.rs:1117-1135, 1163-1175`). -/
def Ty.deserializeReader : (t : Ty) → Reader → Except Err (t.denote × Reader)
  | .uint w, r => readLEFin w r
  | .sint w, r =>
    match r.readExact w with
    | .error e => .error (unexpectedEofToUnexpectedLengthOfInput e)
    | .ok (bs, r') =>
      let n := bytesToNat bs
      .ok (if n < 256 ^ w / 2 then (n : Int) else (n : Int) - ((256 ^ w : Nat) : Int), r')
  | .bool, r =>
    match readLEFin 1 r with
    | .error e => .error e
    | .ok (b, r) =>
      if b.val = 0 then .ok (false, r)
      else if b.val = 1 then .ok (true, r)
      else .error (.invalidData (.invalidBool b.val))
  | .unit, r => .ok ((), r)
  | .opt t, r =>
    match readLEFin 1 r with
    | .error e => .error e
    | .ok (flag, r) =>
      if flag.val = 0 then .ok (none, r)
      else if flag.val = 1 then
        match Ty.deserializeReader t r with
        | .error e => .error e
        | .ok (x, r) => .ok (some x, r)
      else .error (.invalidData (.invalidOption flag.val))
  | .res t e, r =>
    match readLEFin 1 r with
    | .error er => .error er
    | .ok (flag, r) =>
      if flag.val = 0 then
        match Ty.deserializeReader e r with
        | .error er => .error er
        | .ok (x, r) => .ok (Sum.inl x, r)
      else if flag.val = 1 then
        match Ty.deserializeReader t r with
        | .error er => .error er
        | .ok (x, r) => .ok (Sum.inr x, r)
      else .error (.invalidData (.invalidResult flag.val))
  | .pair a b, r =>
    match Ty.deserializeReader a r with
    | .error e => .error e
    | .ok (x, r) =>
      match Ty.deserializeReader b r with
      | .error e => .error e
      | .ok (y, r) => .ok ((x, y), r)
  | .vec (.uint 1), r =>
    match checkZst (.uint 1) with
    | .error e => .error e
    | .ok _ =>
      match readLEFin 4 r with
      | .error e => .error e
      | .ok (len, r) =>
        if len.val = 0 then .ok ([], r)
        else
          match (vecFromReaderU8 len.val r).1 with
          | .error e => .error e
          | .ok (bytes, r') => .ok (bytes, r')
  | .vec t, r =>
    match checkZst t with
    | .error e => .error e
    | .ok _ =>
      match readLEFin 4 r with
      | .error e => .error e
      | .ok (len, r) =>
        if len.val = 0 then .ok ([], r)
        else
          match decodeElems (fun r => Ty.deserializeReader t r) len.val r with
          | .error e => .error e
          | .ok (elems, r) => .ok (elems, r)
  | .sockAddrV6, r =>
    match r.readExact 16 with
    | .error e => .error (unexpectedEofToUnexpectedLengthOfInput e)
    | .ok (ip, r') =>
      match readLEFin 2 r' with
      | .error e => .error e
      | .ok (port, r'') => .ok (⟨ip, port, 0, 0⟩, r'')

/-- `BorshDeserialize::try_from_slice` (`de/mod.rs:59-66`): deserialize from
an in-memory slice (a `Reader` delivering exactly those bytes and then clean
end of input) and fail with `"Not all bytes read"` when bytes remain. -/
def Ty.tryFromSlice (t : Ty) (v : List Byte) : Except Err t.denote :=
  match Ty.deserializeReader t ⟨v, none⟩ with
  | .error e => .error e
  | .ok (result, r') =>
    if r'.data.isEmpty then .ok result
    else .error (.invalidData .notAllBytesRead)

/-- `from_slice` (`de/mod.rs:1659-1666`): identical to `try_from_slice` —
deserialize the whole slice, failing with `"Not all bytes read"` on
leftovers. -/
def fromSlice (t : Ty) (v : List Byte) : Except Err t.denote :=
  match Ty.deserializeReader t ⟨v, none⟩ with
  | .error e => .error e
  | .ok (object, r') =>
    if r'.data.isEmpty then .ok object
    else .error (.invalidData .notAllBytesRead)

/-- `BorshDeserialize::try_from_reader` (`de/mod.rs:71-84`): deserialize,
then probe the source with a 1-byte `read_exact`; only an `UnexpectedEof`
outcome of the probe yields the value, every other outcome (a successful
read, or any other error) is `"Not all bytes read"`. -/
def Ty.tryFromReader (t : Ty) (r : Reader) : Except Err t.denote :=
  match Ty.deserializeReader t r with
  | .error e => .error e
  | .ok (result, r') =>
    match r'.readExact 1 with
    | .error f =>
      if f.kind = .unexpectedEof then .ok result
      else .error (.invalidData .notAllBytesRead)
    | .ok _ => .error (.invalidData .notAllBytesRead)

/-- `from_reader` (`de/mod.rs:1694-1709`): same structure as
`try_from_reader` — decode, then the 1-byte probe whose non-EOF outcomes all
become `"Not all bytes read"`. -/
def fromReader (t : Ty) (r : Reader) : Except Err t.denote :=
  match Ty.deserializeReader t r with
  | .error e => .error e
  | .ok (result, r') =>
    match r'.readExact 1 with
    | .error f =>
      if f.kind = .unexpectedEof then .ok result
      else .error (.invalidData .notAllBytesRead)
    | .ok _ => .error (.invalidData .notAllBytesRead)

instance instDecidableEqExcept {ε α : Type} [DecidableEq ε] [DecidableEq α] :
    DecidableEq (Except ε α) := fun a b =>
  match a, b with
  | .ok x, .ok y =>
    if h : x = y then .isTrue (by rw [h])
    else .isFalse (by intro hc; cases hc; exact h rfl)
  | .error x, .error y =>
    if h : x = y then .isTrue (by rw [h])
    else .isFalse (by intro hc; cases hc; exact h rfl)
  | .ok _, .error _ => .isFalse (by intro hc; cases hc)
  | .error _, .ok _ => .isFalse (by intro hc; cases hc)

/-- The values of `Ty.denote t` that denote actual Rust values: signed
integers carry their `w`-byte two's-complement range, an `Ipv6Addr` has
exactly 16 octets, and containers are well-formed pointwise. (`Fin`-valued
components are bounded by construction.) -/
def Ty.Wf : (t : Ty) → t.denote → Prop
  | .uint _, _ => True
  | .sint w, v =>
    -(((256 ^ w / 2 : Nat) : Int)) ≤ (show Int from v) ∧
      (show Int from v) < ((256 ^ w / 2 : Nat) : Int)
  | .bool, _ => True
  | .unit, _ => True
  | .opt t, v => ∀ x, v = some x → Ty.Wf t x
  | .res t e, v =>
    match v with
    | .inl x => Ty.Wf e x
    | .inr x => Ty.Wf t x
  | .pair a b, v => Ty.Wf a v.1 ∧ Ty.Wf b v.2
  | .vec t, v => ∀ x ∈ (show List t.denote from v), Ty.Wf t x
  | .sockAddrV6, v => v.ip.length = 16

/-- Every `SocketAddrV6` component of the value has `flowinfo = 0` and
`scope_id = 0` — the fields the wire format does not carry. -/
def Ty.ZeroV6Extras : (t : Ty) → t.denote → Prop
  | .uint _, _ => True
  | .sint _, _ => True
  | .bool, _ => True
  | .unit, _ => True
  | .opt t, v => ∀ x, v = some x → Ty.ZeroV6Extras t x
  | .res t e, v =>
    match v with
    | .inl x => Ty.ZeroV6Extras e x
    | .inr x => Ty.ZeroV6Extras t x
  | .pair a b, v => Ty.ZeroV6Extras a v.1 ∧ Ty.ZeroV6Extras b v.2
  | .vec t, v => ∀ x ∈ (show List t.denote from v), Ty.ZeroV6Extras t x
  | .sockAddrV6, v => v.flowinfo = 0 ∧ v.scopeId = 0

theorem readExact_append (bs rest : List Byte) (tail : Option (ErrorKind × Nat))
    (n : Nat) (h : n = bs.length) :
    Reader.readExact ⟨bs ++ rest, tail⟩ n = .ok (bs, ⟨rest, tail⟩) := by
  subst h
  unfold Reader.readExact
  have hlen : bs.length ≤ (bs ++ rest).length := by
    simp [List.length_append]
  rw [if_pos hlen]
  simp [List.take_left, List.drop_left]

theorem readLEFin_append (w : Nat) (v : Fin (256 ^ w)) (rest : List Byte)
    (tail : Option (ErrorKind × Nat)) :
    readLEFin w ⟨encodeLE w v.val ++ rest, tail⟩ = .ok (v, ⟨rest, tail⟩) := by
  have hlen := encodeLE_length w v.val
  unfold readLEFin
  rw [readExact_append (encodeLE w v.val) rest tail w hlen.symm]
  have hval : bytesToNat (encodeLE w v.val) % 256 ^ w = v.val := by
    rw [bytesToNat_encodeLE]
    simp [Nat.mod_eq_of_lt v.isLt]
  exact congrArg Except.ok (Prod.ext (Fin.ext hval) rfl)

theorem reader_read_nil (n : Nat) :
    Reader.read ⟨[], none⟩ n = .ok ([], ⟨[], none⟩) := by
  unfold Reader.read
  simp

theorem reader_read_cons (data : List Byte) (tail : Option (ErrorKind × Nat))
    (n : Nat) (h : data ≠ []) :
    Reader.read ⟨data, tail⟩ n = .ok (data.take n, ⟨data.drop n, tail⟩) := by
  unfold Reader.read
  rw [if_neg (by simpa [List.isEmpty_eq_false] using h)]

/-- When the source still holds the whole declared payload, the
`u8::vec_from_reader` loop succeeds: it returns the payload bytes and leaves
exactly the trailing bytes in the source. -/
theorem vecFromReaderU8Loop_ok (len : Nat) (n : Nat) :
    ∀ (filled : List Byte) (cap : Nat) (data rest : List Byte)
      (tail : Option (ErrorKind × Nat)),
      n = len - filled.length →
      filled.length ≤ cap → cap ≤ len → 0 < cap →
      data.length = len - filled.length →
      (vecFromReaderU8Loop len filled cap ⟨data ++ rest, tail⟩).1 =
        .ok (filled ++ data, ⟨rest, tail⟩) := by
  induction n using Nat.strong_induction_on with
  | _ n ih =>
    intro filled cap data rest tail hn hfc hcl hcpos hdata
    rw [vecFromReaderU8Loop.eq_def]
    by_cases hlt : filled.length < len
    · rw [dif_pos hlt]
      have hdpos : 0 < data.length := by omega
      have hdne : data ++ rest ≠ [] := by
        intro hd
        have hlen := congrArg List.length hd
        rw [List.length_append] at hlen
        simp only [List.length_nil] at hlen
        omega
      have hcap'_gt : filled.length < vecResize cap len filled.length := by
        unfold vecResize
        by_cases he : filled.length = cap
        · rw [if_pos he]
          exact Nat.lt_min.mpr ⟨by omega, by omega⟩
        · rw [if_neg he]; omega
      have hcap'_le : vecResize cap len filled.length ≤ len := by
        unfold vecResize
        by_cases he : filled.length = cap
        · rw [if_pos he]
          exact Nat.min_le_right _ _
        · rw [if_neg he]; omega
      have hk : vecResize cap len filled.length - filled.length ≤ data.length := by
        omega
      have hread : Reader.read ⟨data ++ rest, tail⟩
          (vecResize cap len filled.length - filled.length) =
          .ok (data.take (vecResize cap len filled.length - filled.length),
               ⟨data.drop (vecResize cap len filled.length - filled.length) ++ rest,
                tail⟩) := by
        rw [reader_read_cons _ _ _ hdne]
        rw [List.take_append_of_le_length hk, List.drop_append_of_le_length hk]
      have hchunklen :
          (data.take (vecResize cap len filled.length - filled.length)).length =
          vecResize cap len filled.length - filled.length := by
        rw [List.length_take]
        exact Nat.min_eq_left (by omega)
      have hchunkne :
          (data.take (vecResize cap len filled.length - filled.length)).length ≠ 0 := by
        rw [hchunklen]
        omega
      simp only [hread]
      rw [dif_neg hchunkne]
      have hfl' :
          (filled ++ data.take (vecResize cap len filled.length - filled.length)).length =
          vecResize cap len filled.length := by
        rw [List.length_append, hchunklen]
        omega
      have hrec := ih (len - vecResize cap len filled.length) (by omega)
        (filled ++ data.take (vecResize cap len filled.length - filled.length))
        (vecResize cap len filled.length)
        (data.drop (vecResize cap len filled.length - filled.length)) rest tail
        (by rw [hfl'])
        (by rw [hfl'])
        hcap'_le (by omega)
        (by rw [List.length_drop, hfl']; omega)
      simp only [hrec]
      rw [List.append_assoc, List.take_append_drop]
    · rw [dif_neg hlt]
      have hd0 : data = [] := by
        have : data.length = 0 := by omega
        exact List.eq_nil_of_length_eq_zero this
      subst hd0
      simp

/-- When the source (with clean end of input) holds fewer bytes than the
initial buffer, the `u8::vec_from_reader` loop fails with
`"Unexpected length of input"` and the buffer is never grown: the first read
drains the source into the buffer, the second read returns 0 bytes. -/
theorem vecFromReaderU8Loop_short (len : Nat) (filled : List Byte) (cap : Nat)
    (data : List Byte)
    (hc : filled.length + data.length < cap) (hcl : cap ≤ len) :
    vecFromReaderU8Loop len filled cap ⟨data, none⟩ =
      (.error (.invalidData .unexpectedLengthOfInput), cap) := by
  have hlt : filled.length < len := by omega
  have hresize : vecResize cap len filled.length = cap := by
    unfold vecResize
    rw [if_neg (by omega)]
  by_cases hd : data = []
  · subst hd
    rw [vecFromReaderU8Loop.eq_def, dif_pos hlt]
    simp only [reader_read_nil]
    rw [dif_pos (show ([] : List Byte).length = 0 from rfl), hresize]
  · rw [vecFromReaderU8Loop.eq_def, dif_pos hlt]
    have hdl : data.length ≤ vecResize cap len filled.length - filled.length := by
      rw [hresize]
      omega
    have hread : Reader.read ⟨data, none⟩
        (vecResize cap len filled.length - filled.length) =
        .ok (data, ⟨[], none⟩) := by
      rw [reader_read_cons _ _ _ hd]
      rw [List.take_of_length_le hdl, List.drop_eq_nil_of_le hdl]
    have hlen0 : data.length ≠ 0 := by
      intro h0
      exact hd (List.eq_nil_of_length_eq_zero h0)
    simp only [hread]
    rw [dif_neg hlen0]
    have hstep2 : vecFromReaderU8Loop len (filled ++ data)
        (vecResize cap len filled.length) ⟨[], none⟩ =
        (.error (.invalidData .unexpectedLengthOfInput), cap) := by
      rw [vecFromReaderU8Loop.eq_def,
        dif_pos (show (filled ++ data).length < len by rw [List.length_append]; omega)]
      simp only [reader_read_nil]
      rw [dif_pos (show ([] : List Byte).length = 0 from rfl)]
      rw [hresize]
      unfold vecResize
      rw [if_neg (by rw [List.length_append]; omega)]
    rw [hstep2, hresize]
    simp

/-- The generic (non-`u8`) arm of the `Vec<T>` deserializer, as an equation:
for every element type other than `u8`, `vec_from_reader` returns `None` and
the per-element loop runs. -/
theorem deserializeReader_vec_ne (t : Ty) (ht : t ≠ .uint 1) (r : Reader) :
    Ty.deserializeReader (.vec t) r =
      match checkZst t with
      | .error e => .error e
      | .ok _ =>
        match readLEFin 4 r with
        | .error e => .error e
        | .ok (len, r) =>
          if len.val = 0 then .ok ([], r)
          else
            match decodeElems (fun r => Ty.deserializeReader t r) len.val r with
            | .error e => .error e
            | .ok (elems, r) => .ok (elems, r) := by
  cases t with
  | uint w =>
    match w with
    | 0 => rfl
    | 1 => exact absurd rfl ht
    | (n + 2) => rfl
  | sint w => rfl
  | bool => rfl
  | unit => rfl
  | opt t => rfl
  | res t e => rfl
  | pair a b => rfl
  | vec t => rfl
  | sockAddrV6 => rfl

/-- Decoding the `w`-byte two's-complement pattern of an in-range signed
value recovers the value. -/
theorem sint_round (w : Nat) (v : Int)
    (h1 : -(((256 ^ w / 2 : Nat) : Int)) ≤ v)
    (h2 : v < ((256 ^ w / 2 : Nat) : Int)) :
    (if bytesToNat (encodeLE w ((v.emod (256 ^ w)).toNat)) < 256 ^ w / 2 then
      ((bytesToNat (encodeLE w ((v.emod (256 ^ w)).toNat)) : Nat) : Int)
    else ((bytesToNat (encodeLE w ((v.emod (256 ^ w)).toNat)) : Nat) : Int) -
      ((256 ^ w : Nat) : Int)) = v := by
  have hM : 0 < (256 : Int) ^ w := by positivity
  have hMeq : ((256 ^ w : Nat) : Int) = (256 : Int) ^ w := by push_cast; ring
  rcases le_or_lt 0 v with hv | hv
  · -- nonnegative values are their own pattern
    have hlt : v < (256 : Int) ^ w := by
      calc v < ((256 ^ w / 2 : Nat) : Int) := h2
        _ ≤ ((256 ^ w : Nat) : Int) := by
            have : (256 ^ w / 2 : Nat) ≤ 256 ^ w := Nat.div_le_self _ _
            exact_mod_cast this
        _ = (256 : Int) ^ w := hMeq
    have hemod : v.emod (256 ^ w) = v := by
      rw [show ((256 ^ w : Nat) : Int) = (256 : Int) ^ w from hMeq] at *
      exact Int.emod_eq_of_lt hv hlt
    rw [hemod, bytesToNat_encodeLE]
    have htoNat : ((v.toNat : Nat) : Int) = v := Int.toNat_of_nonneg hv
    have htn_lt : v.toNat < 256 ^ w := by
      have : ((v.toNat : Nat) : Int) < ((256 ^ w : Nat) : Int) := by
        rw [htoNat, hMeq]; exact hlt
      exact_mod_cast this
    rw [Nat.mod_eq_of_lt htn_lt]
    have hcond : v.toNat < 256 ^ w / 2 := by
      have : ((v.toNat : Nat) : Int) < ((256 ^ w / 2 : Nat) : Int) := by
        rw [htoNat]; exact h2
      exact_mod_cast this
    rw [if_pos hcond, htoNat]
  · -- negative values wrap to the upper half
    have hwpos : w ≠ 0 := by
      intro hw
      subst hw
      simp at h1 h2
      omega
    have heven : 256 ^ w / 2 * 2 = 256 ^ w := by
      have : 256 ^ w % 2 = 0 := by
        have : (2 : Nat) ∣ 256 ^ w := by
          rcases Nat.exists_eq_succ_of_ne_zero hwpos with ⟨k, rfl⟩
          exact Dvd.dvd.trans (by norm_num) (dvd_pow_self 256 (Nat.succ_ne_zero k))
        omega
      omega
    have hge : -((256 : Int) ^ w) ≤ v := by
      calc -((256 : Int) ^ w) ≤ -(((256 ^ w / 2 : Nat) : Int)) := by
            rw [← hMeq]
            have : (256 ^ w / 2 : Nat) ≤ 256 ^ w := Nat.div_le_self _ _
            have := (Int.ofNat_le).mpr this
            omega
        _ ≤ v := h1
    have hemod : v.emod (256 ^ w) = v + (256 : Int) ^ w := by
      have h0 : 0 ≤ v + (256 : Int) ^ w := by omega
      have hl : v + (256 : Int) ^ w < (256 : Int) ^ w := by omega
      have hshift : (v + (256 : Int) ^ w).emod ((256 : Int) ^ w) =
          v.emod ((256 : Int) ^ w) := by
        have h := @Int.add_mul_emod_self_left v ((256 : Int) ^ w) 1
        rw [mul_one] at h
        exact h
      rw [← hshift]
      exact Int.emod_eq_of_lt h0 hl
    rw [hemod, bytesToNat_encodeLE]
    have h0 : 0 ≤ v + (256 : Int) ^ w := by omega
    have htoNat : (((v + (256 : Int) ^ w).toNat : Nat) : Int) = v + (256 : Int) ^ w :=
      Int.toNat_of_nonneg h0
    have htn_lt : (v + (256 : Int) ^ w).toNat < 256 ^ w := by
      have hl : v + (256 : Int) ^ w < ((256 ^ w : Nat) : Int) := by
        rw [hMeq]; omega
      have : (((v + (256 : Int) ^ w).toNat : Nat) : Int) < ((256 ^ w : Nat) : Int) := by
        rw [htoNat]; exact hl
      exact_mod_cast this
    rw [Nat.mod_eq_of_lt htn_lt]
    have hcond : ¬ ((v + (256 : Int) ^ w).toNat < 256 ^ w / 2) := by
      intro hc
      have : (((v + (256 : Int) ^ w).toNat : Nat) : Int) < ((256 ^ w / 2 : Nat) : Int) :=
        by exact_mod_cast hc
      rw [htoNat] at this
      have hhalf : ((256 ^ w / 2 : Nat) : Int) * 2 = ((256 ^ w : Nat) : Int) := by
        exact_mod_cast heven
      rw [hMeq] at hhalf
      omega
    rw [if_neg hcond, htoNat, hMeq]
    ring

/-- Serializing a list of `u8` values element by element yields exactly those
bytes (so the `u8_slice` bulk write and the generic loop agree). -/
theorem serializeElems_u8 (v : List (Ty.uint 1).denote) :
    serializeElems (fun x => Ty.serialize (.uint 1) x) v =
      .ok (show List Byte from v) := by
  induction v with
  | nil => rfl
  | cons x xs ih =>
    show (match (Except.ok (encodeLE 1 x.val) : Except Err (List Byte)) with
      | Except.error e => (Except.error e : Except Err (List Byte))
      | Except.ok b =>
        match serializeElems (fun x => Ty.serialize (.uint 1) x) xs with
        | Except.error e => Except.error e
        | Except.ok rest => Except.ok (b ++ rest)) = _
    rw [ih]
    show Except.ok (encodeLE 1 x.val ++ (show List Byte from xs)) = _
    have hx : encodeLE 1 x.val = [x] := by
      show [(⟨x.val % 256, _⟩ : Fin 256)] = [x]
      have : x.val % 256 = x.val := Nat.mod_eq_of_lt x.isLt
      congr 1
      exact Fin.ext this
    rw [hx]
    rfl

/-- Decoding `n` elements from the concatenation of their serializations
recovers the list, given the element-level round trip. -/
theorem decodeElems_serializeElems {α : Type} (f : α → Except Err (List Byte))
    (d : Reader → Except Err (α × Reader)) (l : List α)
    (hpt : ∀ x ∈ l, ∀ bs rest tail, f x = .ok bs →
      d ⟨bs ++ rest, tail⟩ = .ok (x, ⟨rest, tail⟩)) :
    ∀ (payload rest : List Byte) (tail : Option (ErrorKind × Nat)),
      serializeElems f l = .ok payload →
      decodeElems d l.length ⟨payload ++ rest, tail⟩ = .ok (l, ⟨rest, tail⟩) := by
  induction l with
  | nil =>
    intro payload rest tail hser
    cases hser
    rfl
  | cons x xs ih =>
    intro payload rest tail hser
    unfold serializeElems at hser
    cases hfx : f x with
    | error e => rw [hfx] at hser; cases hser
    | ok b =>
      rw [hfx] at hser
      cases hxs : serializeElems f xs with
      | error e => rw [hxs] at hser; cases hser
      | ok p' =>
        rw [hxs] at hser
        cases hser
        show (match d ⟨(b ++ p') ++ rest, tail⟩ with
          | Except.error e => (Except.error e : Except Err (List α × Reader))
          | Except.ok (x, r) =>
            match decodeElems d xs.length r with
            | Except.error e => Except.error e
            | Except.ok (l, r) => Except.ok (x :: l, r)) = _
        rw [List.append_assoc]
        simp only [hpt x (List.mem_cons_self x xs) b (p' ++ rest) tail hfx]
        simp only [ih (fun y hy => hpt y (List.mem_cons_of_mem x hy)) p' rest tail hxs]

/-- Round trip at the heart of the codec: a successful serialization of a
well-formed value (whose `SocketAddrV6` components carry no
flowinfo/scope_id) decodes, from any byte source continuing with `rest`,
back to the value with exactly `rest` left. -/
theorem deserializeReader_serialize (t : Ty) :
    ∀ (v : t.denote) (bs rest : List Byte) (tail : Option (ErrorKind × Nat)),
      Ty.Wf t v → Ty.ZeroV6Extras t v → Ty.serialize t v = .ok bs →
      Ty.deserializeReader t ⟨bs ++ rest, tail⟩ = .ok (v, ⟨rest, tail⟩) := by
  induction t with
  | uint w =>
    intro v bs rest tail _ _ hser
    cases hser
    exact readLEFin_append w v rest tail
  | sint w =>
    intro v bs rest tail hwf _ hser
    cases hser
    show (match Reader.readExact ⟨encodeLE w ((v.emod (256 ^ w)).toNat) ++ rest, tail⟩ w with
      | Except.error e => (Except.error (unexpectedEofToUnexpectedLengthOfInput e) :
          Except Err ((Ty.sint w).denote × Reader))
      | Except.ok (bs, r') =>
        Except.ok (if bytesToNat bs < 256 ^ w / 2 then ((bytesToNat bs : Nat) : Int)
          else ((bytesToNat bs : Nat) : Int) - ((256 ^ w : Nat) : Int), r')) = _
    rw [readExact_append (encodeLE w ((v.emod (256 ^ w)).toNat)) rest tail w
      (encodeLE_length w _).symm]
    exact congrArg Except.ok (Prod.ext (sint_round w v hwf.1 hwf.2) rfl)
  | bool =>
    intro v bs rest tail _ _ hser
    cases v with
    | false =>
      cases hser
      have h : readLEFin 1 ⟨encodeLE 1 (cond false 1 0) ++ rest, tail⟩ =
          .ok ((⟨0, by norm_num⟩ : Fin (256 ^ 1)), ⟨rest, tail⟩) :=
        readLEFin_append 1 ⟨0, by norm_num⟩ rest tail
      simp only [Ty.deserializeReader, h]
      rfl
    | true =>
      cases hser
      have h : readLEFin 1 ⟨encodeLE 1 (cond true 1 0) ++ rest, tail⟩ =
          .ok ((⟨1, by norm_num⟩ : Fin (256 ^ 1)), ⟨rest, tail⟩) :=
        readLEFin_append 1 ⟨1, by norm_num⟩ rest tail
      simp only [Ty.deserializeReader, h]
      rfl
  | unit =>
    intro v bs rest tail _ _ hser
    cases hser
    rfl
  | opt t ih =>
    intro v bs rest tail hwf hzero hser
    cases v with
    | none =>
      cases hser
      have h : readLEFin 1 ⟨encodeLE 1 0 ++ rest, tail⟩ =
          .ok ((⟨0, by norm_num⟩ : Fin (256 ^ 1)), ⟨rest, tail⟩) :=
        readLEFin_append 1 ⟨0, by norm_num⟩ rest tail
      simp only [Ty.deserializeReader, h]
      rfl
    | some x =>
      simp only [Ty.serialize] at hser
      cases hp : Ty.serialize t x with
      | error e => rw [hp] at hser; cases hser
      | ok p =>
        rw [hp] at hser
        cases hser
        rw [List.append_assoc]
        have h : readLEFin 1 ⟨encodeLE 1 1 ++ (p ++ rest), tail⟩ =
            .ok ((⟨1, by norm_num⟩ : Fin (256 ^ 1)), ⟨p ++ rest, tail⟩) :=
          readLEFin_append 1 ⟨1, by norm_num⟩ (p ++ rest) tail
        simp only [Ty.deserializeReader, h]
        have hx := ih x p rest tail (hwf x rfl) (hzero x rfl) hp
        simp only [hx]
        rfl
  | res t e iht ihe =>
    intro v bs rest tail hwf hzero hser
    cases v with
    | inl x =>
      simp only [Ty.serialize] at hser
      cases hp : Ty.serialize e x with
      | error er => rw [hp] at hser; cases hser
      | ok p =>
        rw [hp] at hser
        cases hser
        rw [List.append_assoc]
        have h : readLEFin 1 ⟨encodeLE 1 0 ++ (p ++ rest), tail⟩ =
            .ok ((⟨0, by norm_num⟩ : Fin (256 ^ 1)), ⟨p ++ rest, tail⟩) :=
          readLEFin_append 1 ⟨0, by norm_num⟩ (p ++ rest) tail
        simp only [Ty.deserializeReader, h]
        have hx := ihe x p rest tail hwf hzero hp
        simp only [hx]
        rfl
    | inr x =>
      simp only [Ty.serialize] at hser
      cases hp : Ty.serialize t x with
      | error er => rw [hp] at hser; cases hser
      | ok p =>
        rw [hp] at hser
        cases hser
        rw [List.append_assoc]
        have h : readLEFin 1 ⟨encodeLE 1 1 ++ (p ++ rest), tail⟩ =
            .ok ((⟨1, by norm_num⟩ : Fin (256 ^ 1)), ⟨p ++ rest, tail⟩) :=
          readLEFin_append 1 ⟨1, by norm_num⟩ (p ++ rest) tail
        simp only [Ty.deserializeReader, h]
        have hx := iht x p rest tail hwf hzero hp
        simp only [hx]
        rfl
  | pair a b iha ihb =>
    intro v bs rest tail hwf hzero hser
    simp only [Ty.serialize] at hser
    cases hpa : Ty.serialize a v.1 with
    | error er => rw [hpa] at hser; cases hser
    | ok pa =>
      rw [hpa] at hser
      cases hpb : Ty.serialize b v.2 with
      | error er => rw [hpb] at hser; cases hser
      | ok pb =>
        rw [hpb] at hser
        cases hser
        rw [List.append_assoc]
        simp only [Ty.deserializeReader]
        simp only [iha v.1 pa (pb ++ rest) tail hwf.1 hzero.1 hpa]
        simp only [ihb v.2 pb rest tail hwf.2 hzero.2 hpb]
        rfl
  | vec t ih =>
    intro v bs rest tail hwf hzero hser
    simp only [Ty.serialize] at hser
    cases hz : checkZst t with
    | error er => rw [hz] at hser; cases hser
    | ok u =>
      rw [hz] at hser
      by_cases hlen : v.length < 256 ^ 4
      · rw [if_pos hlen] at hser
        cases hpl : serializeElems (fun x => Ty.serialize t x) v with
        | error er => rw [hpl] at hser; cases hser
        | ok payload =>
          rw [hpl] at hser
          cases hser
          rw [List.append_assoc]
          have hlenFin : readLEFin 4 ⟨encodeLE 4 v.length ++ (payload ++ rest), tail⟩ =
              .ok ((⟨v.length, hlen⟩ : Fin (256 ^ 4)), ⟨payload ++ rest, tail⟩) :=
            readLEFin_append 4 ⟨v.length, hlen⟩ (payload ++ rest) tail
          by_cases ht1 : t = Ty.uint 1
          · subst ht1
            have hpv : payload = (show List Byte from v) := by
              have hse := serializeElems_u8 v
              rw [hpl] at hse
              injection hse
            subst hpv
            simp only [Ty.deserializeReader, hlenFin]
            by_cases hv0 : payload.length = 0
            · rw [if_pos hv0]
              have hv : payload = [] := List.eq_nil_of_length_eq_zero hv0
              subst hv
              rfl
            · rw [if_neg hv0]
              have hloop := vecFromReaderU8Loop_ok payload.length payload.length []
                (min payload.length MB) payload rest tail (by simp)
                (Nat.zero_le _)
                (Nat.min_le_left _ _)
                (Nat.lt_min.mpr ⟨Nat.pos_of_ne_zero hv0, by norm_num [MB]⟩)
                (by simp)
              unfold vecFromReaderU8
              simp only [hloop]
              rfl
          · rw [deserializeReader_vec_ne t ht1]
            simp only [hz, hlenFin]
            by_cases hv0 : v.length = 0
            · rw [if_pos hv0]
              have hv : v = [] := List.eq_nil_of_length_eq_zero hv0
              subst hv
              cases hpl
              rfl
            · rw [if_neg hv0]
              have hdec := decodeElems_serializeElems (fun x => Ty.serialize t x)
                (fun r => Ty.deserializeReader t r) v
                (fun x hx bs' rest' tail' hs =>
                  ih x bs' rest' tail' (hwf x hx) (hzero x hx) hs)
                payload rest tail hpl
              simp only [hdec]
      · rw [if_neg hlen] at hser
        cases hser
  | sockAddrV6 =>
    intro v bs rest tail hwf hzero hser
    obtain ⟨ip, port, flow, scope⟩ := v
    obtain ⟨hflow, hscope⟩ := hzero
    cases hflow
    cases hscope
    cases hser
    rw [List.append_assoc]
    have hip : Reader.readExact ⟨ip ++ (encodeLE 2 port.val ++ rest), tail⟩ 16 =
        .ok (ip, ⟨encodeLE 2 port.val ++ rest, tail⟩) :=
      readExact_append ip (encodeLE 2 port.val ++ rest) tail 16 hwf.symm
    simp only [Ty.deserializeReader, hip]
    have hport : readLEFin 2 ⟨encodeLE 2 port.val ++ rest, tail⟩ =
        .ok (port, ⟨rest, tail⟩) := readLEFin_append 2 port rest tail
    simp only [hport]
    rfl

/-- Root-level round trip: a successful serialization decoded by
`try_from_slice` (whole-buffer, trailing bytes forbidden) returns the value. -/
theorem tryFromSlice_serialize (t : Ty) (v : t.denote) (bs : List Byte)
    (hwf : Ty.Wf t v) (hzero : Ty.ZeroV6Extras t v)
    (hser : Ty.serialize t v = .ok bs) :
    Ty.tryFromSlice t bs = .ok v := by
  unfold Ty.tryFromSlice
  have h := deserializeReader_serialize t v bs [] none hwf hzero hser
  rw [List.append_nil] at h
  rw [h]
  rfl

/-- `impl_for_size_integer! usize` serializer (`ser/mod.rs:166-188`):
`*self as u64` followed by the 8 little-endian bytes — the same bytes on
every platform pointer width. -/
def usizeSerialize (v : Nat) : List Byte := encodeLE 8 v

/-- `impl_for_size_integer! usize` deserializer (`de/mod.rs:320-346`): decode
a `u64`, then `usize::try_from(i)`, which on a platform of pointer width
`ptrWidth` fails exactly when the value exceeds `usize::MAX = 2^ptrWidth - 1`,
with the error `"Overflow on machine with 32 bit usize"`. -/
def usizeDeserializeReader (ptrWidth : Nat) (r : Reader) :
    Except Err (Nat × Reader) :=
  match readLEFin 8 r with
  | .error e => .error e
  | .ok (i, r') =>
    if i.val < 2 ^ ptrWidth then .ok (i.val, r')
    else .error (.invalidData .overflowUsize32)

/-- `impl_for_size_integer! isize` serializer (`ser/mod.rs:166-188`):
`*self as i64` followed by the 8 two's-complement little-endian bytes. -/
def isizeSerialize (v : Int) : List Byte := encodeLE 8 ((v.emod (256 ^ 8)).toNat)

/-- `impl_for_size_integer! isize` deserializer (`de/mod.rs:320-346`): decode
an `i64`, then `isize::try_from(i)`, which fails exactly when the value lies
outside `[-2^(ptrWidth-1), 2^(ptrWidth-1))`, with the error
`"Overflow on machine with 32 bit isize"`. -/
def isizeDeserializeReader (ptrWidth : Nat) (r : Reader) :
    Except Err (Int × Reader) :=
  match Ty.deserializeReader (.sint 8) r with
  | .error e => .error e
  | .ok (i, r') =>
    if -((2 : Int) ^ (ptrWidth - 1)) ≤ (show Int from i) ∧
        (show Int from i) < (2 : Int) ^ (ptrWidth - 1) then .ok ((show Int from i), r')
    else .error (.invalidData .overflowIsize32)

/-- `impl BorshSerialize for HashMap<K, V, H>` (`ser/mod.rs:683-711`). The
in-memory map is its entry sequence in iteration (hash) order; `kZST` is
`size_of::<K>() == 0` (`check_zst::<K>`), `encK`/`encV` the key/value
serializers. The entries are collected and sorted by key
(`vec.sort_by(|(a, _), (b, _)| a.cmp(b))`, a stable sort by a total key
comparator), the `u32` length is written (failing past `u32::MAX`), then each
sorted entry (key bytes, then value bytes). The Rust code binds the sorted
vector once; it is spelled out here at each use. -/
def hashMapSerialize {K V : Type} [LinearOrder K] (kZST : Bool)
    (encK : K → Except Err (List Byte)) (encV : V → Except Err (List Byte))
    (entries : List (K × V)) : Except Err (List Byte) :=
  if kZST then .error (.invalidData .collectionOfZst)
  else if (entries.mergeSort (fun a b => decide (a.1 ≤ b.1))).length < 256 ^ 4 then
    match serializeElems (fun kv =>
        match encK kv.1 with
        | .error e => .error e
        | .ok bk =>
          match encV kv.2 with
          | .error e => .error e
          | .ok bv => .ok (bk ++ bv))
      (entries.mergeSort (fun a b => decide (a.1 ≤ b.1))) with
    | .error e => .error e
    | .ok payload =>
      .ok (encodeLE 4 (entries.mergeSort (fun a b => decide (a.1 ≤ b.1))).length
        ++ payload)
  else .error (.invalidData .lengthOverflow)

/-- `impl BorshSerialize for HashSet<T, H>` (`ser/mod.rs:721-748`): as for
maps, with `vec.sort()` (the full element order) instead of a key sort. -/
def hashSetSerialize {T : Type} [LinearOrder T] (tZST : Bool)
    (encT : T → Except Err (List Byte)) (elems : List T) :
    Except Err (List Byte) :=
  if tZST then .error (.invalidData .collectionOfZst)
  else if (elems.mergeSort (fun a b => decide (a ≤ b))).length < 256 ^ 4 then
    match serializeElems encT (elems.mergeSort (fun a b => decide (a ≤ b))) with
    | .error e => .error e
    | .ok payload =>
      .ok (encodeLE 4 (elems.mergeSort (fun a b => decide (a ≤ b))).length ++ payload)
  else .error (.invalidData .lengthOverflow)

/-- The tuple deserializer `<(K, V)>::deserialize_reader`
(`impl_tuple!`, `de/mod.rs:1405-1430`), with the component decoders as
parameters: key first, then value. -/
def pairDeserializeReader {K V : Type} (dK : Reader → Except Err (K × Reader))
    (dV : Reader → Except Err (V × Reader)) (r : Reader) :
    Except Err ((K × V) × Reader) :=
  match dK r with
  | .error e => .error e
  | .ok (k, r) =>
    match dV r with
    | .error e => .error e
    | .ok (v, r) => .ok ((k, v), r)

/-- The generic `Vec<T>` deserializer with the element decoder as a
parameter (the non-`u8` path of `de/mod.rs:589-626`): `check_zst`
(`tZST` is `size_of::<T>() == 0`), the `u32` length, `Vec::new()` on 0,
else the element loop. -/
def vecDeserializeReader {T : Type} (tZST : Bool)
    (dT : Reader → Except Err (T × Reader)) (r : Reader) :
    Except Err (List T × Reader) :=
  if tZST then .error (.invalidData .collectionOfZst)
  else
    match readLEFin 4 r with
    | .error e => .error e
    | .ok (len, r) =>
      if len.val = 0 then .ok ([], r)
      else
        match decodeElems dT len.val r with
        | .error e => .error e
        | .ok (elems, r) => .ok (elems, r)

/-- The strict-order scan of the map deserializers under `de_strict_order`
(`for pair in vec.windows(2)`, `de/mod.rs:884-898` and `de/mod.rs:981-995`):
fail with `"keys were not serialized in ascending order"` on the first
adjacent pair of entries whose keys are not strictly ascending
(`a_k.cmp(b_k).is_lt()`). -/
def checkKeysStrictOrder {K V : Type} [LinearOrder K] :
    List (K × V) → Except Err Unit
  | [] => .ok ()
  | [_] => .ok ()
  | a :: b :: rest =>
    if a.1 < b.1 then checkKeysStrictOrder (b :: rest)
    else .error (.invalidData .wrongOrderOfKeys)

/-- `impl BorshDeserialize for HashMap<K, V, H>` / `BTreeMap<K, V>` with the
`de_strict_order` feature on (`de/mod.rs:862-902`, `de/mod.rs:960-1001`):
`check_zst::<K>`, decode the underlying `Vec<(K, V)>`, scan adjacent key
pairs, then collect. The resulting map is represented by its (strictly
ascending) entry list. -/
def mapDeserializeReader {K V : Type} [LinearOrder K] (kZST kvZST : Bool)
    (dK : Reader → Except Err (K × Reader))
    (dV : Reader → Except Err (V × Reader)) (r : Reader) :
    Except Err (List (K × V) × Reader) :=
  if kZST then .error (.invalidData .collectionOfZst)
  else
    match vecDeserializeReader kvZST (pairDeserializeReader dK dV) r with
    | .error e => .error e
    | .ok (vec, r) =>
      match checkKeysStrictOrder vec with
      | .error e => .error e
      | .ok _ => .ok (vec, r)

/-- Sorting by key is permutation-invariant when keys are distinct: two entry
sequences holding the same set of entries sort to the identical list. -/
theorem mergeSortKey_eq_of_perm {K V : Type} [LinearOrder K]
    (l1 l2 : List (K × V)) (hperm : l1.Perm l2)
    (hnd : (l1.map Prod.fst).Nodup) :
    l1.mergeSort (fun a b => decide (a.1 ≤ b.1)) =
      l2.mergeSort (fun a b => decide (a.1 ≤ b.1)) := by
  have htrans : ∀ a b c : K × V, decide (a.1 ≤ b.1) = true →
      decide (b.1 ≤ c.1) = true → decide (a.1 ≤ c.1) = true := by
    intro a b c hab hbc
    rw [decide_eq_true_eq] at *
    exact le_trans hab hbc
  have htotal : ∀ a b : K × V,
      (decide (a.1 ≤ b.1) || decide (b.1 ≤ a.1)) = true := by
    intro a b
    rw [Bool.or_eq_true, decide_eq_true_eq, decide_eq_true_eq]
    exact le_total a.1 b.1
  have hs1 := List.sorted_mergeSort htrans htotal l1
  have hs2 := List.sorted_mergeSort htrans htotal l2
  have hp : (l1.mergeSort (fun a b => decide (a.1 ≤ b.1))).Perm
      (l2.mergeSort (fun a b => decide (a.1 ≤ b.1))) :=
    (List.mergeSort_perm l1 _).trans (hperm.trans (List.mergeSort_perm l2 _).symm)
  have hnd1 :
      ((l1.mergeSort (fun a b => decide (a.1 ≤ b.1))).map Prod.fst).Nodup :=
    (((List.mergeSort_perm l1 _).map Prod.fst).nodup_iff).mpr hnd
  have hnd2 :
      ((l2.mergeSort (fun a b => decide (a.1 ≤ b.1))).map Prod.fst).Nodup :=
    ((hp.map Prod.fst).nodup_iff).mp hnd1
  have strict : ∀ (l : List (K × V)),
      List.Pairwise (fun a b : K × V => decide (a.1 ≤ b.1) = true) l →
      (l.map Prod.fst).Nodup →
      List.Pairwise (fun a b : K × V => a.1 < b.1) l := by
    intro l hpw hnd'
    have hne : List.Pairwise (fun a b : K × V => a.1 ≠ b.1) l :=
      (List.pairwise_map).mp hnd'
    exact (hpw.and hne).imp
      (fun h => lt_of_le_of_ne (by
        have := h.1
        rw [decide_eq_true_eq] at this
        exact this) h.2)
  have hstrict1 := strict _ hs1 hnd1
  have hstrict2 := strict _ hs2 hnd2
  haveI : IsAntisymm (K × V) (fun a b : K × V => a.1 < b.1) :=
    ⟨fun a b h1 h2 => absurd h1 (lt_asymm h2)⟩
  exact List.eq_of_perm_of_sorted hp hstrict1 hstrict2

/-- Sorting a duplicate-free element list is permutation-invariant. -/
theorem mergeSortElem_eq_of_perm {T : Type} [LinearOrder T]
    (l1 l2 : List T) (hperm : l1.Perm l2) (hnd : l1.Nodup) :
    l1.mergeSort (fun a b => decide (a ≤ b)) =
      l2.mergeSort (fun a b => decide (a ≤ b)) := by
  have htrans : ∀ a b c : T, decide (a ≤ b) = true →
      decide (b ≤ c) = true → decide (a ≤ c) = true := by
    intro a b c hab hbc
    rw [decide_eq_true_eq] at *
    exact le_trans hab hbc
  have htotal : ∀ a b : T, (decide (a ≤ b) || decide (b ≤ a)) = true := by
    intro a b
    rw [Bool.or_eq_true, decide_eq_true_eq, decide_eq_true_eq]
    exact le_total a b
  have hs1 := List.sorted_mergeSort htrans htotal l1
  have hs2 := List.sorted_mergeSort htrans htotal l2
  have hp : (l1.mergeSort (fun a b => decide (a ≤ b))).Perm
      (l2.mergeSort (fun a b => decide (a ≤ b))) :=
    (List.mergeSort_perm l1 _).trans (hperm.trans (List.mergeSort_perm l2 _).symm)
  have himp : ∀ (l : List T),
      List.Pairwise (fun a b : T => decide (a ≤ b) = true) l →
      List.Pairwise (fun a b : T => a ≤ b) l := by
    intro l hpw
    exact hpw.imp (fun h => by rw [decide_eq_true_eq] at h; exact h)
  haveI : IsAntisymm T (fun a b : T => a ≤ b) := ⟨fun a b h1 h2 => le_antisymm h1 h2⟩
  exact List.eq_of_perm_of_sorted hp (himp _ hs1) (himp _ hs2)

/-- The strict-order scan accepts exactly the strictly-ascending entry lists
and otherwise reports `"keys were not serialized in ascending order"`. -/
theorem checkKeysStrictOrder_spec {K V : Type} [LinearOrder K]
    (l : List (K × V)) :
    (List.Chain' (fun a b : K × V => a.1 < b.1) l →
      checkKeysStrictOrder l = .ok ()) ∧
    (¬ List.Chain' (fun a b : K × V => a.1 < b.1) l →
      checkKeysStrictOrder l = .error (.invalidData .wrongOrderOfKeys)) := by
  induction l with
  | nil => exact ⟨fun _ => rfl, fun h => absurd List.chain'_nil h⟩
  | cons a t ih =>
    cases t with
    | nil =>
      refine ⟨fun _ => rfl, fun h => absurd ?_ h⟩
      exact List.chain'_singleton a
    | cons b rest =>
      constructor
      · intro h
        rw [List.chain'_cons] at h
        show (if a.1 < b.1 then checkKeysStrictOrder (b :: rest)
          else .error (.invalidData .wrongOrderOfKeys)) = _
        rw [if_pos h.1]
        exact ih.1 h.2
      · intro h
        rw [List.chain'_cons] at h
        show (if a.1 < b.1 then checkKeysStrictOrder (b :: rest)
          else .error (.invalidData .wrongOrderOfKeys)) = _
        by_cases hab : a.1 < b.1
        · rw [if_pos hab]
          exact ih.2 (fun hc => h ⟨hab, hc⟩)
        · rw [if_neg hab]

/-- A `w`-byte unsigned value from a numeral (taken mod the width), for
concrete statements. -/
def finv (w n : Nat) : Fin (256 ^ w) :=
  ⟨n % 256 ^ w, Nat.mod_lt n (Nat.pos_pow_of_pos w (by norm_num))⟩

/-- C1 counterexample: the claim "decode(encode(v)) == v for every supported
type and value" fails at `SocketAddrV6`: a socket address with
`flowinfo = 1` serializes (only ip and port are written), deserializes
successfully, but comes back with `flowinfo = 0` — a different value. -/
theorem c1_roundtrip_counterexample :
    Ty.serialize .sockAddrV6
        ⟨List.replicate 16 (finv 1 0), finv 2 80, finv 4 1, finv 4 0⟩ =
      .ok (List.replicate 16 (finv 1 0) ++ [finv 1 80, finv 1 0]) ∧
    Ty.tryFromSlice .sockAddrV6
        (List.replicate 16 (finv 1 0) ++ [finv 1 80, finv 1 0]) =
      .ok ⟨List.replicate 16 (finv 1 0), finv 2 80, finv 4 0, finv 4 0⟩ ∧
    (⟨List.replicate 16 (finv 1 0), finv 2 80, finv 4 0, finv 4 0⟩ : SockAddrV6) ≠
      ⟨List.replicate 16 (finv 1 0), finv 2 80, finv 4 1, finv 4 0⟩ := by
  refine ⟨by decide, by decide, by decide⟩

/-- C1 (amended): for every covered type `T` and every well-formed value `v`
whose `SocketAddrV6` components all carry `flowinfo = 0` and `scope_id = 0`,
if serialization produces bytes at all, then deserializing those bytes with
`try_from_slice` succeeds and returns a value equal to `v`. -/
theorem c1_roundtrip_amended (t : Ty) (v : t.denote) (bs : List Byte)
    (hwf : Ty.Wf t v) (hzero : Ty.ZeroV6Extras t v)
    (hser : Ty.serialize t v = .ok bs) :
    Ty.tryFromSlice t bs = .ok v :=
  tryFromSlice_serialize t v bs hwf hzero hser

theorem c1_roundtrip_amended_witness :
    Ty.tryFromSlice (.opt (.uint 4)) [finv 1 1, finv 1 7, finv 1 0, finv 1 0, finv 1 0] =
      .ok (some (finv 4 7)) :=
  c1_roundtrip_amended (.opt (.uint 4)) (some (finv 4 7))
    [finv 1 1, finv 1 7, finv 1 0, finv 1 0, finv 1 0]
    (fun _ _ => trivial) (fun _ _ => trivial) (by decide)

/-- C2: serializing `vec![1u32, 2u32]` produces exactly
`02 00 00 00 01 00 00 00 02 00 00 00` — the 4-byte little-endian length
prefix 2 followed by each `u32` little-endian — and deserializing those
twelve bytes as `Vec<u32>` yields `[1, 2]` back. -/
theorem c2_vec_u32_concrete :
    Ty.serialize (.vec (.uint 4)) [finv 4 1, finv 4 2] =
      .ok [finv 1 2, finv 1 0, finv 1 0, finv 1 0,
           finv 1 1, finv 1 0, finv 1 0, finv 1 0,
           finv 1 2, finv 1 0, finv 1 0, finv 1 0] ∧
    Ty.tryFromSlice (.vec (.uint 4))
        [finv 1 2, finv 1 0, finv 1 0, finv 1 0,
         finv 1 1, finv 1 0, finv 1 0, finv 1 0,
         finv 1 2, finv 1 0, finv 1 0, finv 1 0] =
      .ok [finv 4 1, finv 4 2] := by
  refine ⟨by decide, by decide⟩

/-- C3: hash-map/hash-set serialization is independent of the in-memory
iteration order: for any two entry sequences holding the same entries
(permutations of each other, keys distinct — the `HashMap`/`HashSet`
invariant), the serializer — which collects the entries, sorts them
ascending by key, writes the `u32` length and then the entries in sorted
order — produces byte-identical output. -/
theorem c3_hash_collections_deterministic :
    (∀ (K V : Type) (inst : LinearOrder K) (kZST : Bool)
        (encK : K → Except Err (List Byte)) (encV : V → Except Err (List Byte))
        (l1 l2 : List (K × V)),
        l1.Perm l2 → (l1.map Prod.fst).Nodup →
        hashMapSerialize kZST encK encV l1 = hashMapSerialize kZST encK encV l2) ∧
    (∀ (T : Type) (inst : LinearOrder T) (tZST : Bool)
        (encT : T → Except Err (List Byte)) (l1 l2 : List T),
        l1.Perm l2 → l1.Nodup →
        hashSetSerialize tZST encT l1 = hashSetSerialize tZST encT l2) := by
  constructor
  · intro K V inst kZST encK encV l1 l2 hperm hnd
    unfold hashMapSerialize
    rw [mergeSortKey_eq_of_perm l1 l2 hperm hnd]
  · intro T inst tZST encT l1 l2 hperm hnd
    unfold hashSetSerialize
    rw [mergeSortElem_eq_of_perm l1 l2 hperm hnd]

theorem c3_hash_collections_deterministic_witness :
    hashMapSerialize false (fun k : Fin 256 => .ok [k]) (fun v : Fin 256 => .ok [v])
        [(finv 1 3, finv 1 9), (finv 1 5, finv 1 1)] =
      hashMapSerialize false (fun k : Fin 256 => .ok [k]) (fun v : Fin 256 => .ok [v])
        [(finv 1 5, finv 1 1), (finv 1 3, finv 1 9)] ∧
    hashSetSerialize false (fun t : Fin 256 => .ok [t]) [finv 1 3, finv 1 5] =
      hashSetSerialize false (fun t : Fin 256 => .ok [t]) [finv 1 5, finv 1 3] :=
  ⟨c3_hash_collections_deterministic.1 (Fin 256) (Fin 256) inferInstance false
      _ _ _ _ (by decide) (by decide),
   c3_hash_collections_deterministic.2 (Fin 256) inferInstance false
      _ _ _ (by decide) (by decide)⟩

/-- C4: in strict-order mode, after the underlying entry sequence has been
decoded, the map deserializer scans every adjacent key pair: whenever some
key is not strictly less than its successor (so also for duplicates or a
descending pair), decoding fails with
`"keys were not serialized in ascending order"`; when the keys are strictly
ascending it returns the decoded entries. -/
theorem c4_strict_order_rejection :
    ∀ (K V : Type) (inst : LinearOrder K) (kvZST : Bool)
      (dK : Reader → Except Err (K × Reader))
      (dV : Reader → Except Err (V × Reader)) (r : Reader)
      (l : List (K × V)) (r' : Reader),
      vecDeserializeReader kvZST (pairDeserializeReader dK dV) r = .ok (l, r') →
      (¬ List.Chain' (fun a b : K × V => a.1 < b.1) l →
        mapDeserializeReader false kvZST dK dV r =
          .error (.invalidData .wrongOrderOfKeys)) ∧
      (List.Chain' (fun a b : K × V => a.1 < b.1) l →
        mapDeserializeReader false kvZST dK dV r = .ok (l, r')) := by
  intro K V inst kvZST dK dV r l r' hvec
  unfold mapDeserializeReader
  rw [if_neg (by simp)]
  simp only [hvec]
  constructor
  · intro h
    simp only [(checkKeysStrictOrder_spec l).2 h]
  · intro h
    simp only [(checkKeysStrictOrder_spec l).1 h]

/-- The `u8` decoder, typed at `Fin 256`, for concrete map-decode
statements. -/
def u8dec : Reader → Except Err (Fin 256 × Reader) :=
  fun r => Ty.deserializeReader (.uint 1) r

theorem c4_strict_order_rejection_witness :
    mapDeserializeReader false false u8dec u8dec
        ⟨[finv 1 2, finv 1 0, finv 1 0, finv 1 0,
          finv 1 5, finv 1 9, finv 1 3, finv 1 9], none⟩ =
      .error (.invalidData .wrongOrderOfKeys) := by
  have h := c4_strict_order_rejection (Fin 256) (Fin 256)
    inferInstance false u8dec u8dec
    ⟨[finv 1 2, finv 1 0, finv 1 0, finv 1 0,
      finv 1 5, finv 1 9, finv 1 3, finv 1 9], none⟩
    [(finv 1 5, finv 1 9), (finv 1 3, finv 1 9)] ⟨[], none⟩
    (by decide)
  refine h.1 (fun hc => ?_)
  rw [List.chain'_cons] at hc
  exact absurd hc.1 (by decide)

/-- C5: the bulk byte-vector read never trusts the declared length: from a
source (clean end of input) holding fewer bytes than the initial buffer
`min(len, 1 MiB)`, it fails with `"Unexpected length of input"` and the
buffer never grows past `min(len, 1 MiB)`; in particular a declared length
of `0xFFFFFFFF` against a 10-byte source fails with that error having
allocated only the 1 MiB = 1048576-byte buffer, far below the declared
length. -/
theorem c5_bounded_byte_vec_read :
    (∀ (len : Nat) (data : List Byte), data.length < min len MB →
      vecFromReaderU8 len ⟨data, none⟩ =
        (.error (.invalidData .unexpectedLengthOfInput), min len MB)) ∧
    vecFromReaderU8 4294967295 ⟨List.replicate 10 (finv 1 0), none⟩ =
      (.error (.invalidData .unexpectedLengthOfInput), 1048576) ∧
    (1048576 : Nat) = MB ∧ (1048576 : Nat) < 4294967295 := by
  have hgen : ∀ (len : Nat) (data : List Byte), data.length < min len MB →
      vecFromReaderU8 len ⟨data, none⟩ =
        (.error (.invalidData .unexpectedLengthOfInput), min len MB) := by
    intro len data h
    unfold vecFromReaderU8
    exact vecFromReaderU8Loop_short len [] (min len MB) data
      (by simpa using h) (Nat.min_le_left _ _)
  have hmin : min 4294967295 MB = 1048576 := by decide
  refine ⟨hgen, ?_, by norm_num [MB], by norm_num⟩
  have h10 : (List.replicate 10 (finv 1 0)).length < min 4294967295 MB := by
    rw [List.length_replicate, hmin]
    norm_num
  have := hgen 4294967295 (List.replicate 10 (finv 1 0)) h10
  rw [this, hmin]

theorem c5_bounded_byte_vec_read_witness :
    vecFromReaderU8 5 ⟨[], none⟩ =
      (.error (.invalidData .unexpectedLengthOfInput), min 5 MB) :=
  c5_bounded_byte_vec_read.1 5 [] (by decide)

theorem readLEFin_one (b : Byte) (rest : List Byte)
    (tail : Option (ErrorKind × Nat)) :
    readLEFin 1 ⟨b :: rest, tail⟩ = .ok (finv 1 b.val, ⟨rest, tail⟩) := by
  have hcons : b :: rest = [b] ++ rest := rfl
  rw [hcons]
  unfold readLEFin
  rw [readExact_append [b] rest tail 1 rfl]
  exact congrArg Except.ok (Prod.ext (Fin.ext (by
    show bytesToNat [b] % 256 ^ 1 = b.val % 256 ^ 1
    simp [bytesToNat])) rfl)

/-- C6: decoding `Option<T>` reads one tag byte — 0 yields `None`, 1 yields
`Some` of the decoded payload, any other byte fails with the
invalid-representation error naming that byte; decoding `Result<T, E>` reads
one tag byte — 0 yields the `Err` payload, 1 the `Ok` payload, any other
byte fails with the invalid-representation error naming that byte. -/
theorem c6_option_result_tags :
    ∀ (t e : Ty) (b : Byte) (rest : List Byte) (tail : Option (ErrorKind × Nat)),
      (b.val = 0 →
        Ty.deserializeReader (.opt t) ⟨b :: rest, tail⟩ = .ok (none, ⟨rest, tail⟩)) ∧
      (b.val = 1 → ∀ (x : t.denote) (r' : Reader),
        Ty.deserializeReader t ⟨rest, tail⟩ = .ok (x, r') →
        Ty.deserializeReader (.opt t) ⟨b :: rest, tail⟩ = .ok (some x, r')) ∧
      (2 ≤ b.val →
        Ty.deserializeReader (.opt t) ⟨b :: rest, tail⟩ =
          .error (.invalidData (.invalidOption b.val))) ∧
      (b.val = 0 → ∀ (x : e.denote) (r' : Reader),
        Ty.deserializeReader e ⟨rest, tail⟩ = .ok (x, r') →
        Ty.deserializeReader (.res t e) ⟨b :: rest, tail⟩ = .ok (Sum.inl x, r')) ∧
      (b.val = 1 → ∀ (x : t.denote) (r' : Reader),
        Ty.deserializeReader t ⟨rest, tail⟩ = .ok (x, r') →
        Ty.deserializeReader (.res t e) ⟨b :: rest, tail⟩ = .ok (Sum.inr x, r')) ∧
      (2 ≤ b.val →
        Ty.deserializeReader (.res t e) ⟨b :: rest, tail⟩ =
          .error (.invalidData (.invalidResult b.val))) := by
  intro t e b rest tail
  have hb : (finv 1 b.val).val = b.val :=
    Nat.mod_eq_of_lt (lt_of_lt_of_le b.isLt (by norm_num))
  refine ⟨?_, ?_, ?_, ?_, ?_, ?_⟩
  · intro h0
    simp only [Ty.deserializeReader, readLEFin_one, hb]
    rw [if_pos h0]
  · intro h1 x r' hx
    simp only [Ty.deserializeReader, readLEFin_one, hb]
    rw [if_neg (by omega), if_pos h1]
    simp only [hx]
  · intro h2
    simp only [Ty.deserializeReader, readLEFin_one, hb]
    rw [if_neg (by omega), if_neg (by omega)]
  · intro h0 x r' hx
    simp only [Ty.deserializeReader, readLEFin_one, hb]
    rw [if_pos h0]
    simp only [hx]
  · intro h1 x r' hx
    simp only [Ty.deserializeReader, readLEFin_one, hb]
    rw [if_neg (by omega), if_pos h1]
    simp only [hx]
  · intro h2
    simp only [Ty.deserializeReader, readLEFin_one, hb]
    rw [if_neg (by omega), if_neg (by omega)]

theorem c6_option_result_tags_witness :
    Ty.deserializeReader (.opt (.uint 1)) ⟨[finv 1 2], none⟩ =
      .error (.invalidData (.invalidOption 2)) ∧
    Ty.deserializeReader (.res (.uint 1) (.uint 1)) ⟨[finv 1 7], none⟩ =
      .error (.invalidData (.invalidResult 7)) ∧
    Ty.deserializeReader (.opt (.uint 1)) ⟨[finv 1 0], none⟩ =
      .ok (none, ⟨[], none⟩) ∧
    Ty.deserializeReader (.opt (.uint 1)) ⟨[finv 1 1, finv 1 9], none⟩ =
      .ok (some (finv 1 9), ⟨[], none⟩) :=
  ⟨(c6_option_result_tags (.uint 1) (.uint 1) (finv 1 2) [] none).2.2.1 (by decide),
   (c6_option_result_tags (.uint 1) (.uint 1) (finv 1 7) [] none).2.2.2.2.2 (by decide),
   (c6_option_result_tags (.uint 1) (.uint 1) (finv 1 0) [] none).1 (by decide),
   (c6_option_result_tags (.uint 1) (.uint 1) (finv 1 1) [finv 1 9] none).2.1
     (by decide) (finv 1 9) ⟨[], none⟩ (by decide)⟩

/-- C7: `usize`/`isize` are serialized as their fixed 64-bit little-endian
representation — 8 bytes, independent of the platform — and deserialization
decodes the 64-bit value and range-checks it against the receiving
platform's pointer width `ptrWidth`, failing with the dedicated
`"Overflow on machine with 32 bit usize"` (resp. `isize`) error when the
value does not fit; in particular the stored `usize` value `2^40` fails to
decode on a 32-bit target instead of being truncated. -/
theorem c7_size_integers :
    (∀ (v : Nat), (usizeSerialize v).length = 8) ∧
    (∀ (v : Int), (isizeSerialize v).length = 8) ∧
    (∀ (ptrWidth : Nat) (v : Nat) (rest : List Byte)
        (tail : Option (ErrorKind × Nat)), v < 2 ^ 64 →
      usizeDeserializeReader ptrWidth ⟨usizeSerialize v ++ rest, tail⟩ =
        if v < 2 ^ ptrWidth then .ok (v, ⟨rest, tail⟩)
        else .error (.invalidData .overflowUsize32)) ∧
    usizeDeserializeReader 32 ⟨usizeSerialize (2 ^ 40), none⟩ =
      .error (.invalidData .overflowUsize32) ∧
    (∀ (ptrWidth : Nat) (v : Int) (rest : List Byte)
        (tail : Option (ErrorKind × Nat)),
      -((2 : Int) ^ 63) ≤ v → v < (2 : Int) ^ 63 →
      isizeDeserializeReader ptrWidth ⟨isizeSerialize v ++ rest, tail⟩ =
        if -((2 : Int) ^ (ptrWidth - 1)) ≤ v ∧ v < (2 : Int) ^ (ptrWidth - 1)
        then .ok (v, ⟨rest, tail⟩)
        else .error (.invalidData .overflowIsize32)) := by
  have husize : ∀ (ptrWidth : Nat) (v : Nat) (rest : List Byte)
      (tail : Option (ErrorKind × Nat)), v < 2 ^ 64 →
      usizeDeserializeReader ptrWidth ⟨usizeSerialize v ++ rest, tail⟩ =
        if v < 2 ^ ptrWidth then .ok (v, ⟨rest, tail⟩)
        else .error (.invalidData .overflowUsize32) := by
    intro ptrWidth v rest tail hv
    have hv' : v < 256 ^ 8 := by
      have : (256 : Nat) ^ 8 = 2 ^ 64 := by norm_num
      omega
    have h : readLEFin 8 ⟨usizeSerialize v ++ rest, tail⟩ =
        .ok ((⟨v, hv'⟩ : Fin (256 ^ 8)), ⟨rest, tail⟩) :=
      readLEFin_append 8 ⟨v, hv'⟩ rest tail
    unfold usizeDeserializeReader
    simp only [h]
  refine ⟨fun v => encodeLE_length 8 v, fun v => encodeLE_length 8 _, husize, ?_, ?_⟩
  · have h := husize 32 (2 ^ 40) [] none (by norm_num)
    rw [List.append_nil] at h
    rw [h, if_neg (by norm_num)]
  · intro ptrWidth v rest tail h1 h2
    have hhalf : ((256 ^ 8 / 2 : Nat) : Int) = 2 ^ 63 := by norm_num
    have hwf : Ty.Wf (.sint 8) v := by
      constructor
      · rw [hhalf]; exact h1
      · rw [hhalf]; exact h2
    have hdec := deserializeReader_serialize (.sint 8) v (isizeSerialize v)
      rest tail hwf trivial rfl
    unfold isizeDeserializeReader
    simp only [hdec]

theorem c7_size_integers_witness :
    usizeDeserializeReader 64 ⟨usizeSerialize 5 ++ [], none⟩ =
      .ok (5, ⟨[], none⟩) ∧
    isizeDeserializeReader 32 ⟨isizeSerialize (-3) ++ [], none⟩ =
      .ok (-3, ⟨[], none⟩) := by
  constructor
  · rw [c7_size_integers.2.2.1 64 5 [] none (by norm_num)]
    rw [if_pos (by norm_num)]
  · rw [c7_size_integers.2.2.2.2 32 (-3) [] none (by norm_num) (by norm_num)]
    rw [if_pos (by constructor <;> norm_num)]

/-- C8: root-level decoding consumes the whole input: `from_slice` (and
`try_from_slice`, which behaves identically) fails with `"Not all bytes
read"` whenever bytes remain after the value, and succeeds when the value
consumed the buffer exactly — e.g. a `u8` root-decoded from `[5, 9]` fails
while the same two bytes decoded as the two fields of a pair succeed — and
the reader-based root entry point `try_from_reader` likewise fails unless
the source is exhausted right after the decode. -/
theorem c8_root_whole_input :
    (∀ (t : Ty) (bs : List Byte) (v : t.denote) (r' : Reader),
      Ty.deserializeReader t ⟨bs, none⟩ = .ok (v, r') → r'.data ≠ [] →
      fromSlice t bs = .error (.invalidData .notAllBytesRead)) ∧
    (∀ (t : Ty) (bs : List Byte) (v : t.denote) (r' : Reader),
      Ty.deserializeReader t ⟨bs, none⟩ = .ok (v, r') → r'.data = [] →
      fromSlice t bs = .ok v) ∧
    (∀ (t : Ty) (bs : List Byte), Ty.tryFromSlice t bs = fromSlice t bs) ∧
    fromSlice (.uint 1) [finv 1 5, finv 1 9] =
      .error (.invalidData .notAllBytesRead) ∧
    fromSlice (.pair (.uint 1) (.uint 1)) [finv 1 5, finv 1 9] =
      .ok (finv 1 5, finv 1 9) ∧
    (∀ (t : Ty) (r : Reader) (v : t.denote) (r' : Reader),
      Ty.deserializeReader t r = .ok (v, r') → r'.data ≠ [] →
      Ty.tryFromReader t r = .error (.invalidData .notAllBytesRead)) ∧
    (∀ (t : Ty) (r : Reader) (v : t.denote) (r' : Reader),
      Ty.deserializeReader t r = .ok (v, r') → r'.data = [] → r'.tailErr = none →
      Ty.tryFromReader t r = .ok v) := by
  refine ⟨?_, ?_, fun t bs => rfl, by decide, by decide, ?_, ?_⟩
  · intro t bs v r' h hne
    unfold fromSlice
    simp only [h]
    rw [if_neg (fun hc => hne (List.isEmpty_iff.mp hc))]
  · intro t bs v r' h he
    unfold fromSlice
    simp only [h]
    rw [if_pos (List.isEmpty_iff.mpr he)]
  · intro t r v r' h hne
    unfold Ty.tryFromReader
    simp only [h]
    have hre : r'.readExact 1 = .ok (r'.data.take 1, ⟨r'.data.drop 1, r'.tailErr⟩) := by
      unfold Reader.readExact
      rw [if_pos (show 1 ≤ r'.data.length from List.length_pos.mpr hne)]
    simp only [hre]
  · intro t r v r' h he ht
    unfold Ty.tryFromReader
    simp only [h]
    have hre : r'.readExact 1 = .error .readExactEof := by
      unfold Reader.readExact
      rw [if_neg (by rw [he]; simp), ht]
    simp only [hre]
    rfl

theorem c8_root_whole_input_witness :
    Ty.tryFromReader (.uint 1) ⟨[finv 1 5, finv 1 9], none⟩ =
      .error (.invalidData .notAllBytesRead) ∧
    Ty.tryFromReader (.uint 1) ⟨[finv 1 5], none⟩ = .ok (finv 1 5) ∧
    fromSlice (.uint 1) [finv 1 7] = .ok (finv 1 7) :=
  ⟨c8_root_whole_input.2.2.2.2.2.1 (.uint 1) ⟨[finv 1 5, finv 1 9], none⟩
      (finv 1 5) ⟨[finv 1 9], none⟩ (by decide) (by decide),
   c8_root_whole_input.2.2.2.2.2.2 (.uint 1) ⟨[finv 1 5], none⟩
      (finv 1 5) ⟨[], none⟩ (by decide) rfl rfl,
   c8_root_whole_input.2.1 (.uint 1) [finv 1 7] (finv 1 7) ⟨[], none⟩
      (by decide) rfl⟩

/-- C9 counterexample: an I/O error raised by the source during the
root-level `from_reader` is not always propagated verbatim: here the value
(`5u8`) decodes successfully, the source then fails with an opaque transport
error (kind `other 7`, payload 42) when `from_reader` probes for trailing
data, and `from_reader` returns `"Not all bytes read"` — a different error —
instead of that I/O error. -/
theorem c9_io_passthrough_counterexample :
    Ty.deserializeReader (.uint 1) ⟨[finv 1 5], some (.other 7, 42)⟩ =
      .ok (finv 1 5, ⟨[], some (.other 7, 42)⟩) ∧
    fromReader (.uint 1) ⟨[finv 1 5], some (.other 7, 42)⟩ =
      .error (.invalidData .notAllBytesRead) ∧
    (Err.invalidData .notAllBytesRead) ≠ .io (.other 7) 42 := by
  refine ⟨by decide, by decide, by decide⟩

/-- C9 (amended): every error arising while decoding the value is returned
to the immediate caller unchanged — in particular a transport error of any
kind other than end-of-input is passed through verbatim by the primitive
reads, while an end-of-input-kind failure is reported as the
`"Unexpected length of input"` invalid-data error; the root-level
`from_reader` trailing-byte probe, however, replaces every outcome other
than end-of-input — including an I/O error the source raises there — with
`"Not all bytes read"`. -/
theorem c9_error_propagation_amended :
    (∀ (t : Ty) (r : Reader) (e : Err),
      Ty.deserializeReader t r = .error e → fromReader t r = .error e) ∧
    (∀ (w : Nat) (k : ErrorKind) (p : Nat), 0 < w → k ≠ .unexpectedEof →
      readLEFin w ⟨[], some (k, p)⟩ = .error (.io k p)) ∧
    (∀ (w : Nat) (p : Nat), 0 < w →
      readLEFin w ⟨[], some (.unexpectedEof, p)⟩ =
        .error (.invalidData .unexpectedLengthOfInput)) ∧
    (∀ (t : Ty) (r : Reader) (v : t.denote) (r' : Reader) (k : ErrorKind)
        (p : Nat),
      Ty.deserializeReader t r = .ok (v, r') → r'.data = [] →
      r'.tailErr = some (k, p) → k ≠ .unexpectedEof →
      fromReader t r = .error (.invalidData .notAllBytesRead)) := by
  refine ⟨?_, ?_, ?_, ?_⟩
  · intro t r e h
    unfold fromReader
    simp only [h]
  · intro w k p hw hk
    unfold readLEFin Reader.readExact
    rw [if_neg (by simp; omega)]
    show Except.error (unexpectedEofToUnexpectedLengthOfInput (.io k p)) = _
    unfold unexpectedEofToUnexpectedLengthOfInput
    rw [if_neg (by simpa [Err.kind] using hk)]
  · intro w p hw
    unfold readLEFin Reader.readExact
    rw [if_neg (by simp; omega)]
    show Except.error
      (unexpectedEofToUnexpectedLengthOfInput (.io .unexpectedEof p)) = _
    unfold unexpectedEofToUnexpectedLengthOfInput
    simp [Err.kind]
  · intro t r v r' k p h he ht hk
    unfold fromReader
    simp only [h]
    have hre : r'.readExact 1 = .error (.io k p) := by
      unfold Reader.readExact
      rw [if_neg (by rw [he]; simp), ht]
    simp only [hre]
    rw [if_neg (by simpa [Err.kind] using hk)]

theorem c9_error_propagation_amended_witness :
    fromReader (.uint 1) ⟨[], none⟩ =
      .error (.invalidData .unexpectedLengthOfInput) ∧
    readLEFin 1 ⟨[], some (.other 3, 9)⟩ = .error (.io (.other 3) 9) ∧
    readLEFin 1 ⟨[], some (.unexpectedEof, 9)⟩ =
      .error (.invalidData .unexpectedLengthOfInput) ∧
    fromReader (.uint 1) ⟨[finv 1 5], some (.other 3, 9)⟩ =
      .error (.invalidData .notAllBytesRead) :=
  ⟨c9_error_propagation_amended.1 (.uint 1) ⟨[], none⟩
      (.invalidData .unexpectedLengthOfInput) (by decide),
   c9_error_propagation_amended.2.1 1 (.other 3) 9 (by norm_num) (by decide),
   c9_error_propagation_amended.2.2.1 1 9 (by norm_num),
   c9_error_propagation_amended.2.2.2 (.uint 1) ⟨[finv 1 5], some (.other 3, 9)⟩
      (finv 1 5) ⟨[], some (.other 3, 9)⟩ (.other 3) 9
      (by decide) rfl rfl (by decide)⟩

theorem readExact_ok_inv (r : Reader) (n : Nat) (bs : List Byte) (r' : Reader)
    (h : r.readExact n = .ok (bs, r')) :
    bs = r.data.take n ∧ r' = ⟨r.data.drop n, r.tailErr⟩ := by
  unfold Reader.readExact at h
  by_cases hle : n ≤ r.data.length
  · rw [if_pos hle] at h
    cases h
    exact ⟨rfl, rfl⟩
  · rw [if_neg hle] at h
    cases htail : r.tailErr with
    | none => rw [htail] at h; cases h
    | some kp => rw [htail] at h; cases h

theorem readLEFin_ok_inv (w : Nat) (r : Reader) (val : Fin (256 ^ w))
    (r' : Reader) (h : readLEFin w r = .ok (val, r')) :
    r' = ⟨r.data.drop w, r.tailErr⟩ := by
  unfold readLEFin at h
  cases hre : r.readExact w with
  | error e => rw [hre] at h; cases h
  | ok p =>
    obtain ⟨bs, r2⟩ := p
    rw [hre] at h
    obtain ⟨_, hr2⟩ := readExact_ok_inv r w bs r2 hre
    cases h
    exact hr2

/-- C10: a `SocketAddrV6` decode reads only the 16 address octets and the
2-byte port and always builds the address with `flowinfo = 0` and
`scope_id = 0`; consequently serializing and re-deserializing any
`SocketAddrV6` whose `flowinfo` or `scope_id` is nonzero succeeds but
returns a value that differs from the original in those fields. -/
theorem c10_sockaddr_v6_fields :
    (∀ (r : Reader) (a : SockAddrV6) (r' : Reader),
      Ty.deserializeReader .sockAddrV6 r = .ok (a, r') →
      a.flowinfo = 0 ∧ a.scopeId = 0 ∧ a.ip = r.data.take 16 ∧
      r'.data = r.data.drop 18 ∧ r'.tailErr = r.tailErr) ∧
    (∀ (v : SockAddrV6) (bs : List Byte),
      v.ip.length = 16 → (v.flowinfo ≠ 0 ∨ v.scopeId ≠ 0) →
      Ty.serialize .sockAddrV6 v = .ok bs →
      Ty.tryFromSlice .sockAddrV6 bs = .ok ⟨v.ip, v.port, 0, 0⟩ ∧
        (⟨v.ip, v.port, 0, 0⟩ : SockAddrV6) ≠ v) := by
  constructor
  · intro r a r' h
    rw [show Ty.deserializeReader .sockAddrV6 r =
      (match r.readExact 16 with
       | .error e => .error (unexpectedEofToUnexpectedLengthOfInput e)
       | .ok (ip, r1) =>
         match readLEFin 2 r1 with
         | .error e => .error e
         | .ok (port, r2) => .ok (⟨ip, port, 0, 0⟩, r2)) from rfl] at h
    cases hre : r.readExact 16 with
    | error e => rw [hre] at h; cases h
    | ok p1 =>
      obtain ⟨ip0, r1⟩ := p1
      simp only [hre] at h
      cases hp : readLEFin 2 r1 with
      | error e => simp only [hp] at h; cases h
      | ok p2 =>
        obtain ⟨port0, r2⟩ := p2
        simp only [hp] at h
        obtain ⟨ha, hr'⟩ : (⟨ip0, port0, 0, 0⟩ : SockAddrV6) = a ∧ r2 = r' := by
          injection h with hpair
          exact ⟨congrArg Prod.fst hpair, congrArg Prod.snd hpair⟩
        subst ha
        subst hr'
        obtain ⟨hip, hr1⟩ := readExact_ok_inv r 16 ip0 r1 hre
        have hr2 := readLEFin_ok_inv 2 r1 port0 r2 hp
        subst hr1
        refine ⟨rfl, rfl, hip, ?_, ?_⟩
        · rw [hr2]
          show (r.data.drop 16).drop 2 = _
          rw [List.drop_drop]
        · rw [hr2]
  · intro v bs hip hnz hser
    obtain ⟨ip, port, flow, scope⟩ := v
    cases hser
    constructor
    · unfold Ty.tryFromSlice
      have hre : Reader.readExact ⟨ip ++ encodeLE 2 port.val, none⟩ 16 =
          .ok (ip, ⟨encodeLE 2 port.val, none⟩) := by
        have h := readExact_append ip (encodeLE 2 port.val) none 16 hip.symm
        exact h
      have hp2 : readLEFin 2 ⟨encodeLE 2 port.val, none⟩ =
          .ok (port, ⟨[], none⟩) := by
        have h := readLEFin_append 2 port [] none
        rwa [List.append_nil] at h
      rw [show Ty.deserializeReader .sockAddrV6 ⟨ip ++ encodeLE 2 port.val, none⟩ =
        (match Reader.readExact ⟨ip ++ encodeLE 2 port.val, none⟩ 16 with
         | .error e => .error (unexpectedEofToUnexpectedLengthOfInput e)
         | .ok (i, r1) =>
           match readLEFin 2 r1 with
           | .error e => .error e
           | .ok (p, r2) => .ok (⟨i, p, 0, 0⟩, r2)) from rfl]
      simp only [hre, hp2]
      rfl
    · intro heq
      injection heq with _ _ hf hs
      rcases hnz with hnf | hns
      · exact hnf hf.symm
      · exact hns hs.symm

theorem c10_sockaddr_v6_fields_witness :
    Ty.tryFromSlice .sockAddrV6
        (List.replicate 16 (⟨0, by norm_num⟩ : Byte) ++ encodeLE 2 80) =
      .ok ⟨List.replicate 16 (⟨0, by norm_num⟩ : Byte), finv 2 80, 0, 0⟩ ∧
    (⟨List.replicate 16 (⟨0, by norm_num⟩ : Byte), finv 2 80, 0, 0⟩ : SockAddrV6) ≠
      ⟨List.replicate 16 (⟨0, by norm_num⟩ : Byte), finv 2 80, finv 4 1, finv 4 0⟩ :=
  c10_sockaddr_v6_fields.2
    ⟨List.replicate 16 (⟨0, by norm_num⟩ : Byte), finv 2 80, finv 4 1, finv 4 0⟩
    (List.replicate 16 (⟨0, by norm_num⟩ : Byte) ++ encodeLE 2 80)
    (by decide) (Or.inl (by decide)) (by decide)
